import Mathlib

/-!
# RevGame core: shallow embedding and verification

This file embeds the core of the RevGame emulator/debugger
(`crates/revgame-core/src/emulator/{flags,memory,instructions}.rs` and
`crates/revgame-core/src/debugger/{execution,history,search}.rs`) into Lean 4
and proves/refutes the frozen specification claims about it.

Conventions of the embedding:
* Rust `u32`/`u8`/`usize` values are modelled as `Nat`, with explicit
  `% 2^32` (resp. `% 2^8`) wherever the Rust code wraps or truncates.
* Rust in-place mutation (`&mut self`) is modelled by explicit state passing:
  a fallible write returns `Except MemoryError Unit × Memory`, the second
  component being the (possibly unchanged) memory after the call.
* The flat memory buffer `Vec<u8>` is a `List Nat`.
* The x86 instruction decoder (`iced_x86`) is an external collaborator of the
  repository; the debugger control layer is therefore parameterised by an
  executor oracle (see `ExecOracle` below) whose instances correspond to
  decoded programs.
-/

namespace RevGame

/-- Modulus of 32-bit machine arithmetic. -/
def U32 : Nat := 2 ^ 32

/-- Wrap a natural number into the 32-bit range (Rust `u32` wrapping). -/
def wrap32 (n : Nat) : Nat := n % U32

/-- `emulator/flags.rs`: the x86 EFLAGS register (simplified). -/
structure Eflags where
  cf : Bool
  zf : Bool
  sf : Bool
  of : Bool
  pf : Bool
  af : Bool
  df : Bool
deriving DecidableEq, Repr

/-- `Eflags::new` / `Default`: all flags cleared. -/
def Eflags.new : Eflags :=
  ⟨false, false, false, false, false, false, false⟩

/-- `Eflags::compute_parity`: true when the low byte has an even number of
one bits (`byte.count_ones() % 2 == 0` on a `u8`). -/
def Eflags.compute_parity (byte : Nat) : Bool :=
  ((List.range 8).countP (fun i => (byte / 2 ^ i) % 2 = 1)) % 2 = 0

/-- The sign bit of a 32-bit value: `(x as i32) < 0` in the source. -/
def sign32 (x : Nat) : Bool := 2 ^ 31 ≤ x % U32

/-- `Eflags::update_arithmetic`: flag update for ADD/SUB-style results.
`result` is the already-wrapped 32-bit result, `operand1`/`operand2` the
32-bit inputs; `is_sub` distinguishes subtraction. The carry comes from
`overflowing_sub`/`overflowing_add` on the operands. -/
def Eflags.update_arithmetic (f : Eflags) (result operand1 operand2 : Nat)
    (is_sub : Bool) : Eflags :=
  let zf := result = 0
  let sf := sign32 result
  let pf := Eflags.compute_parity (result % 2 ^ 8)
  let cf := if is_sub then operand1 < operand2 else U32 ≤ operand1 + operand2
  let sign1 := sign32 operand1
  let sign2 := sign32 operand2
  let sign_result := sign32 result
  let of :=
    if is_sub then (sign1 ≠ sign2) ∧ (sign_result ≠ sign1)
    else (sign1 = sign2) ∧ (sign_result ≠ sign1)
  let af := Nat.testBit (Nat.xor (Nat.xor operand1 operand2) result) 4
  { f with zf := zf, sf := sf, pf := pf, cf := cf, of := of, af := af }

/-- `Eflags::update_logical`: flag update for AND/OR/XOR/TEST results.
CF and OF are always cleared; AF is cleared too. -/
def Eflags.update_logical (f : Eflags) (result : Nat) : Eflags :=
  { f with
    zf := result = 0
    sf := sign32 result
    pf := Eflags.compute_parity (result % 2 ^ 8)
    cf := false
    of := false
    af := false }

/-- `Eflags::update_inc`: flag update for INC; CF is not affected. -/
def Eflags.update_inc (f : Eflags) (result original : Nat) : Eflags :=
  { f with
    zf := result = 0
    sf := sign32 result
    pf := Eflags.compute_parity (result % 2 ^ 8)
    of := original = 0x7FFFFFFF
    af := result % 2 ^ 4 = 0 }

/-- `Eflags::update_dec`: flag update for DEC; CF is not affected. -/
def Eflags.update_dec (f : Eflags) (result original : Nat) : Eflags :=
  { f with
    zf := result = 0
    sf := sign32 result
    pf := Eflags.compute_parity (result % 2 ^ 8)
    of := original = 0x80000000
    af := original % 2 ^ 4 = 0 }

/-! ## Memory subsystem (`emulator/memory.rs`) -/

/-- `MemoryError` from `emulator/memory.rs`. -/
inductive MemoryError where
  | OutOfBounds (address : Nat) (size : Nat)
  | AccessViolation (address : Nat) (reason : String)
  | UnalignedAccess (address : Nat) (alignment : Nat)
deriving DecidableEq, Repr

/-- Memory region permissions. -/
structure Permissions where
  read : Bool
  write : Bool
  execute : Bool
deriving DecidableEq, Repr

def Permissions.rwx : Permissions := ⟨true, true, true⟩

def Permissions.rw : Permissions := ⟨true, true, false⟩

def Permissions.rx : Permissions := ⟨true, false, true⟩

def Permissions.ro : Permissions := ⟨true, false, false⟩

/-- A named memory region with permissions; `stop` is the field the source
calls `end` (a keyword in Lean). -/
structure MemoryRegion where
  name : String
  start : Nat
  stop : Nat
  permissions : Permissions
deriving DecidableEq, Repr

/-- `MemoryRegion::contains`: `start ≤ address < end`. -/
def MemoryRegion.containsAddr (r : MemoryRegion) (address : Nat) : Bool :=
  r.start ≤ address ∧ address < r.stop

/-- The memory subsystem: a flat byte buffer (bytes as `Nat < 256`), the
named regions in insertion order, and the permission-enforcement switch. -/
structure Memory where
  data : List Nat
  regions : List MemoryRegion
  enforce_permissions : Bool
deriving DecidableEq, Repr

/-- `Memory::new(size)`: zero-filled buffer, no regions, enforcement off. -/
def Memory.new (size : Nat) : Memory :=
  ⟨List.replicate size 0, [], false⟩

/-- `Memory::size`. -/
def Memory.size (m : Memory) : Nat := m.data.length

/-- `Memory::set_enforce_permissions`. -/
def Memory.set_enforce_permissions (m : Memory) (enforce : Bool) : Memory :=
  { m with enforce_permissions := enforce }

/-- `Memory::add_region`. -/
def Memory.add_region (m : Memory) (region : MemoryRegion) : Memory :=
  { m with regions := m.regions ++ [region] }

/-- `Memory::get_region`: the first region (in insertion order) containing
the address. -/
def Memory.get_region (m : Memory) (address : Nat) : Option MemoryRegion :=
  m.regions.find? (fun r => r.containsAddr address)

/-- `Memory::check_bounds`: an access of `size` bytes at `address` must
satisfy `address + size ≤ data.len()`. -/
def Memory.check_bounds (m : Memory) (address size : Nat) :
    Except MemoryError Unit :=
  if address + size > m.data.length then
    Except.error (MemoryError.OutOfBounds address m.data.length)
  else
    Except.ok ()

/-- `Memory::check_read`: when enforcement is on, the first region containing
the address (if any) must be readable. -/
def Memory.check_read (m : Memory) (address : Nat) : Except MemoryError Unit :=
  if !m.enforce_permissions then Except.ok ()
  else
    match m.get_region address with
    | some region =>
        if !region.permissions.read then
          Except.error (MemoryError.AccessViolation address
            ("Region " ++ region.name ++ " is not readable"))
        else Except.ok ()
    | none => Except.ok ()

/-- `Memory::check_write`: when enforcement is on, the first region containing
the address (if any) must be writable. -/
def Memory.check_write (m : Memory) (address : Nat) : Except MemoryError Unit :=
  if !m.enforce_permissions then Except.ok ()
  else
    match m.get_region address with
    | some region =>
        if !region.permissions.write then
          Except.error (MemoryError.AccessViolation address
            ("Region " ++ region.name ++ " is not writable"))
        else Except.ok ()
    | none => Except.ok ()

/-- `Memory::read_u8`. -/
def Memory.read_u8 (m : Memory) (address : Nat) : Except MemoryError Nat := do
  m.check_bounds address 1
  m.check_read address
  pure (m.data.getD address 0)

/-- `Memory::read_u16` (little-endian). -/
def Memory.read_u16 (m : Memory) (address : Nat) : Except MemoryError Nat := do
  m.check_bounds address 2
  m.check_read address
  pure (m.data.getD address 0 + m.data.getD (address + 1) 0 * 2 ^ 8)

/-- `Memory::read_u32` (little-endian). -/
def Memory.read_u32 (m : Memory) (address : Nat) : Except MemoryError Nat := do
  m.check_bounds address 4
  m.check_read address
  pure (m.data.getD address 0 + m.data.getD (address + 1) 0 * 2 ^ 8 +
    m.data.getD (address + 2) 0 * 2 ^ 16 + m.data.getD (address + 3) 0 * 2 ^ 24)

/-- `Memory::read_bytes`. -/
def Memory.read_bytes (m : Memory) (address count : Nat) :
    Except MemoryError (List Nat) := do
  m.check_bounds address count
  m.check_read address
  pure ((m.data.drop address).take count)

/-- Overwrite `data[address .. address + bytes.length)` with `bytes`
(the callers have already established the bounds). -/
def writeRange (data : List Nat) (address : Nat) (bytes : List Nat) :
    List Nat :=
  data.take address ++ bytes ++ data.drop (address + bytes.length)

/-- `Memory::write_u8`. The `Except` result mirrors the Rust `Result<()>`;
the returned `Memory` is the state of the `&mut self` receiver after the
call (unchanged when an error is returned). `value % 2^8` reflects the `u8`
argument type. -/
def Memory.write_u8 (m : Memory) (address value : Nat) :
    Except MemoryError Unit × Memory :=
  match m.check_bounds address 1 with
  | Except.error e => (Except.error e, m)
  | Except.ok _ =>
    match m.check_write address with
    | Except.error e => (Except.error e, m)
    | Except.ok _ =>
      (Except.ok (), { m with data := writeRange m.data address [value % 2 ^ 8] })

/-- `Memory::write_u16` (little-endian `to_le_bytes`). -/
def Memory.write_u16 (m : Memory) (address value : Nat) :
    Except MemoryError Unit × Memory :=
  match m.check_bounds address 2 with
  | Except.error e => (Except.error e, m)
  | Except.ok _ =>
    match m.check_write address with
    | Except.error e => (Except.error e, m)
    | Except.ok _ =>
      (Except.ok (), { m with data := (
        writeRange m.data address [value % 2 ^ 8, value / 2 ^ 8 % 2 ^ 8]) })

/-- `Memory::write_u32` (little-endian `to_le_bytes`). -/
def Memory.write_u32 (m : Memory) (address value : Nat) :
    Except MemoryError Unit × Memory :=
  match m.check_bounds address 4 with
  | Except.error e => (Except.error e, m)
  | Except.ok _ =>
    match m.check_write address with
    | Except.error e => (Except.error e, m)
    | Except.ok _ =>
      (Except.ok (), { m with data := (
        writeRange m.data address
          [value % 2 ^ 8, value / 2 ^ 8 % 2 ^ 8,
           value / 2 ^ 16 % 2 ^ 8, value / 2 ^ 24 % 2 ^ 8]) })

/-- `Memory::write_bytes`. -/
def Memory.write_bytes (m : Memory) (address : Nat) (bytes : List Nat) :
    Except MemoryError Unit × Memory :=
  match m.check_bounds address bytes.length with
  | Except.error e => (Except.error e, m)
  | Except.ok _ =>
    match m.check_write address with
    | Except.error e => (Except.error e, m)
    | Except.ok _ =>
      (Except.ok (), { m with data := writeRange m.data address bytes })

/-- `Memory::load`: raw setup write, bounds-checked but bypassing the
permission check. -/
def Memory.load (m : Memory) (address : Nat) (bytes : List Nat) :
    Except MemoryError Unit × Memory :=
  match m.check_bounds address bytes.length with
  | Except.error e => (Except.error e, m)
  | Except.ok _ =>
    (Except.ok (), { m with data := writeRange m.data address bytes })

/-! ## Executor value-level semantics (`emulator/instructions.rs`)

Each `Executor::exec_*` reads its operand values through the decoder-supplied
operand descriptors (`read_operand`) and writes the result back
(`write_operand`).  The decoder is an external collaborator, so the embedding
captures each instruction as its transformation of the operand *values* and
the flags: a function from the current flags and operand values to the new
flags and the value written back (the value is returned unchanged when the
source does not call `write_operand`). -/

/-- `value as i32`: the signed reading of a 32-bit value. -/
def toSigned32 (v : Nat) : Int :=
  if v % U32 < 2 ^ 31 then ((v % U32 : Nat) : Int)
  else ((v % U32 : Nat) : Int) - (U32 : Int)

/-- `x as u32` for a signed 32-bit quantity: two's-complement reading. -/
def toUnsigned32 (i : Int) : Nat := (i % (U32 : Int)).toNat

/-- Rust `u32::wrapping_add`. -/
def add32 (a b : Nat) : Nat := (a + b) % U32

/-- Rust `u32::wrapping_sub` (two's-complement wrapping subtraction). -/
def sub32 (a b : Nat) : Nat := (a % U32 + (U32 - b % U32)) % U32

/-- `Executor::exec_sub` on operand values: wrapping subtraction plus
`update_arithmetic` with `is_sub = true`. -/
def exec_sub_val (f : Eflags) (op1 op2 : Nat) : Eflags × Nat :=
  let result := sub32 op1 op2
  (f.update_arithmetic result op1 op2 true, result)

/-- `Executor::exec_add` on operand values. -/
def exec_add_val (f : Eflags) (op1 op2 : Nat) : Eflags × Nat :=
  let result := add32 op1 op2
  (f.update_arithmetic result op1 op2 false, result)

/-- `Executor::exec_inc` on its operand value. -/
def exec_inc_val (f : Eflags) (value : Nat) : Eflags × Nat :=
  let result := add32 value 1
  (f.update_inc result value, result)

/-- `Executor::exec_and` on operand values. -/
def exec_and_val (f : Eflags) (op1 op2 : Nat) : Eflags × Nat :=
  let result := Nat.land op1 op2
  (f.update_logical result, result)

/-- `Executor::exec_or` on operand values. -/
def exec_or_val (f : Eflags) (op1 op2 : Nat) : Eflags × Nat :=
  let result := Nat.lor op1 op2
  (f.update_logical result, result)

/-- `Executor::exec_xor` on operand values. -/
def exec_xor_val (f : Eflags) (op1 op2 : Nat) : Eflags × Nat :=
  let result := Nat.xor op1 op2
  (f.update_logical result, result)

/-- `Executor::exec_shl` (also SAL) on operand values.  The source masks the
count to 5 bits, and for a nonzero count assigns
`cf = (value >> (32 - count)) & 1`, then calls `update_logical result`
(which overwrites `cf` with `false`), then for `count == 1` compares the top
result bit against the *current* `cf` field.  The sequencing below mirrors
the source statement by statement. -/
def exec_shl_val (f : Eflags) (value countRaw : Nat) : Eflags × Nat :=
  let count := countRaw % 2 ^ 5
  if count > 0 then
    let result := wrap32 (value * 2 ^ count)
    let f1 := { f with cf := value / 2 ^ (32 - count) % 2 = 1 }
    let f2 := f1.update_logical result
    let f3 :=
      if count = 1 then
        { f2 with of := result / 2 ^ 31 % 2 ≠ (if f2.cf then 1 else 0) }
      else f2
    (f3, result)
  else (f, value)

/-- `Executor::exec_shr` on operand values; same `cf`-then-`update_logical`
sequencing as `exec_shl`. -/
def exec_shr_val (f : Eflags) (value countRaw : Nat) : Eflags × Nat :=
  let count := countRaw % 2 ^ 5
  if count > 0 then
    let result := value % U32 / 2 ^ count
    let f1 := { f with cf := value / 2 ^ (count - 1) % 2 = 1 }
    let f2 := f1.update_logical result
    let f3 := if count = 1 then { f2 with of := value % U32 / 2 ^ 31 ≠ 0 } else f2
    (f3, result)
  else (f, value)

/-- `Executor::exec_sar` on operand values: the operand is reinterpreted as
`i32` and shifted arithmetically (floor division by `2^count`); same
`cf`-then-`update_logical` sequencing as the other shifts. -/
def exec_sar_val (f : Eflags) (value countRaw : Nat) : Eflags × Nat :=
  let signedValue := toSigned32 value
  let count := countRaw % 2 ^ 5
  if count > 0 then
    let result := toUnsigned32 (Int.fdiv signedValue (2 ^ count))
    let f1 := { f with cf := Int.fdiv signedValue (2 ^ (count - 1)) % 2 ≠ 0 }
    let f2 := f1.update_logical result
    let f3 := if count = 1 then { f2 with of := false } else f2
    (f3, result)
  else (f, value)

/-! ## CPU state (`emulator/cpu.rs`) -/

/-- CPU fault information (`CpuFault`). -/
inductive CpuFault where
  | InvalidOpcode (a : Nat)
  | MemoryFault (address : Nat) (write : Bool)
  | DivideError
  | StackFault
  | GeneralProtection (s : String)
deriving DecidableEq, Repr

/-- General purpose registers. -/
structure Registers where
  eax : Nat
  ebx : Nat
  ecx : Nat
  edx : Nat
  esi : Nat
  edi : Nat
  ebp : Nat
  esp : Nat
deriving DecidableEq, Repr

/-- `Registers::default()`: all zero. -/
def Registers.default : Registers := ⟨0, 0, 0, 0, 0, 0, 0, 0⟩

/-- Complete CPU state. -/
structure CpuState where
  regs : Registers
  eip : Nat
  eflags : Eflags
  halted : Bool
  fault : Option CpuFault
deriving DecidableEq, Repr

/-- `CpuState::default()`. -/
def CpuState.default : CpuState :=
  ⟨Registers.default, 0, Eflags.new, false, none⟩

/-- `CpuState::new(entry_point, stack_pointer)`. -/
def CpuState.new (entry_point stack_pointer : Nat) : CpuState :=
  { CpuState.default with
    eip := entry_point
    regs := { Registers.default with esp := stack_pointer } }

/-! ## Errors and execution results -/

/-- `EmulatorError` from `emulator/mod.rs`. -/
inductive EmulatorError where
  | Memory (e : MemoryError)
  | UnsupportedInstruction (s : String)
  | InvalidOperand (s : String)
  | DivisionByZero
  | Halted
  | ExecutionLimitExceeded
deriving DecidableEq, Repr

/-- `ExecutionResult` from `emulator/instructions.rs`. -/
inductive ExecutionResult where
  | Continue (next_eip : Nat)
  | Halt
  | Breakpoint
  | Interrupt (vector : Nat)
deriving DecidableEq, Repr

/-- `DebuggerError` from `debugger/mod.rs`. -/
inductive DebuggerError where
  | Emulator (e : EmulatorError)
  | Memory (e : MemoryError)
  | AlreadyHalted
  | ExecutionLimit (n : Nat)
  | InvalidBreakpoint (a : Nat)
  | NothingToUndo
  | NothingToRedo
  | InvalidInput (s : String)
deriving DecidableEq, Repr

/-! ## Patch history (`debugger/history.rs`) -/

/-- A single memory modification action. -/
structure MemoryPatch where
  address : Nat
  old_bytes : List Nat
  new_bytes : List Nat
deriving DecidableEq, Repr

/-- `MemoryPatch::inverse`: swap the old and new byte ranges. -/
def MemoryPatch.inverse (p : MemoryPatch) : MemoryPatch :=
  ⟨p.address, p.new_bytes, p.old_bytes⟩

/-- Undo/redo history.  The source stores both stacks in `VecDeque`s used
back-to-front (`push_back`/`pop_back`, `pop_front` to evict the oldest);
here each stack is a list kept most-recent-first, so `push_back` is `cons`,
`pop_back` takes the head, and `pop_front` is `dropLast`. -/
structure History where
  undo_stack : List MemoryPatch
  redo_stack : List MemoryPatch
  max_history : Nat
deriving DecidableEq, Repr

/-- `History::new(max_history)`. -/
def History.new (max_history : Nat) : History := ⟨[], [], max_history⟩

/-- `History::record`: push onto the undo stack, clear the redo stack, and
evict the oldest entry past `max_history`. -/
def History.record (h : History) (patch : MemoryPatch) : History :=
  let undo := patch :: h.undo_stack
  let undo := if undo.length > h.max_history then undo.dropLast else undo
  { h with undo_stack := undo, redo_stack := [] }

/-- `History::undo`: pop the most recent patch, push it onto the redo stack,
and hand back its inverse. -/
def History.undo (h : History) : Option MemoryPatch × History :=
  match h.undo_stack with
  | [] => (none, h)
  | patch :: rest =>
      (some patch.inverse,
       { h with undo_stack := rest, redo_stack := patch :: h.redo_stack })

/-- `History::redo`: pop the most recent undone patch, push it back onto the
undo stack, and hand back the forward patch. -/
def History.redo (h : History) : Option MemoryPatch × History :=
  match h.redo_stack with
  | [] => (none, h)
  | patch :: rest =>
      (some patch,
       { h with redo_stack := rest, undo_stack := patch :: h.undo_stack })

/-- `History::can_undo`. -/
def History.can_undo (h : History) : Bool := !h.undo_stack.isEmpty

/-- `History::can_redo`. -/
def History.can_redo (h : History) : Bool := !h.redo_stack.isEmpty

/-- `History::clear`. -/
def History.clear (h : History) : History := { h with undo_stack := [], redo_stack := [] }

/-! ## Debugger control layer (`debugger/execution.rs`) -/

/-- Debugger execution state. -/
inductive DebuggerState where
  | Ready
  | Running
  | AtBreakpoint (a : Nat)
  | Halted
  | LimitExceeded
  | Error (msg : String)
deriving DecidableEq, Repr

/-- Result of running until stop (`RunResult`). -/
inductive RunResult where
  | Breakpoint (a : Nat)
  | Halted
  | LimitExceeded (count : Nat)
  | Error (msg : String)
deriving DecidableEq, Repr

/-- Entry in the execution trace (`HistoryEntry`): the pre-instruction
instruction pointer, the full pre-instruction CPU snapshot, and the rendered
text of the executed instruction. -/
structure HistoryEntry where
  eip : Nat
  cpu_snapshot : CpuState
  instruction_text : String
deriving DecidableEq, Repr

/-- Result of stepping one instruction (`StepResult`).  The source carries
the full `DisassemblyLine` of the executed instruction; only its rendered
text is observable in this embedding (the rest of the line is produced by
the external decoder). -/
structure StepResult where
  instruction : Option String
  state : DebuggerState
  changed_registers : List String
  changed_memory : List (Nat × Nat)
deriving DecidableEq, Repr

/-- The main debugger state (`Debugger`).  The executor object, bookmark
index and the initial-state snapshot used by `reset()` are omitted: none of
the embedded operations touch them.  The execution trace `history` is kept
most-recent-first (`push_back` is `cons`, eviction of the oldest entry is
`dropLast`), like the patch stacks. -/
structure Debugger where
  cpu : CpuState
  memory : Memory
  state : DebuggerState
  breakpoints : List Nat
  max_instructions : Nat
  instructions_executed : Nat
  total_instructions : Nat
  history : List HistoryEntry
  max_history : Nat
  patch_history : History
deriving DecidableEq, Repr

/-- `Debugger::new(memory_size)`: `max_instructions = 100_000`,
`max_history = 1000`, patch history bounded at 100. -/
def Debugger.new (memory_size : Nat) : Debugger :=
  { cpu := CpuState.default
    memory := Memory.new memory_size
    state := DebuggerState.Ready
    breakpoints := []
    max_instructions := 100000
    instructions_executed := 0
    total_instructions := 0
    history := []
    max_history := 1000
    patch_history := History.new 100 }

/-- The instruction executor together with the one-line disassembly of the
instruction about to execute, abstracted as an oracle.

`Debugger::step` first disassembles one instruction at `cpu.eip` and then
calls `Executor::execute_one`, which decodes the *same* 15-byte window with
the same decoder; the 15-byte fetch and the decode either succeed in both
calls or fail in both, so a successful execution always comes with the
decoded line.  The oracle therefore returns, for given CPU and memory
states, either an error or the rendered instruction text paired with the
`ExecutionResult`, together with the CPU and memory states as left behind by
`execute_one` (which mutates its `&mut` receivers even on some error paths;
it never touches `eip` — `step` updates `eip` itself afterwards). -/
def ExecOracle : Type :=
  CpuState → Memory →
    Except EmulatorError (String × ExecutionResult) × CpuState × Memory

/-- `Debugger::detect_register_changes`. -/
def Debugger.detect_register_changes (d : Debugger) (old : CpuState) :
    List String :=
  (if old.regs.eax ≠ d.cpu.regs.eax then ["EAX"] else []) ++
  (if old.regs.ebx ≠ d.cpu.regs.ebx then ["EBX"] else []) ++
  (if old.regs.ecx ≠ d.cpu.regs.ecx then ["ECX"] else []) ++
  (if old.regs.edx ≠ d.cpu.regs.edx then ["EDX"] else []) ++
  (if old.regs.esi ≠ d.cpu.regs.esi then ["ESI"] else []) ++
  (if old.regs.edi ≠ d.cpu.regs.edi then ["EDI"] else []) ++
  (if old.regs.ebp ≠ d.cpu.regs.ebp then ["EBP"] else []) ++
  (if old.regs.esp ≠ d.cpu.regs.esp then ["ESP"] else []) ++
  (if old.eip ≠ d.cpu.eip then ["EIP"] else [])

/-- `Debugger::step`: refuse in the terminal states, execute one instruction
through the oracle, push the pre-step CPU snapshot onto the bounded trace,
bump both instruction counters, and resolve the next `DebuggerState` from
the `ExecutionResult`. -/
def Debugger.step (exec : ExecOracle) (d : Debugger) :
    Except DebuggerError StepResult × Debugger :=
  if d.state = DebuggerState.Halted ∨ d.state = DebuggerState.LimitExceeded then
    (Except.error DebuggerError.AlreadyHalted, d)
  else
    let old_cpu := d.cpu
    let old_eip := d.cpu.eip
    let (res, cpu1, mem1) := exec d.cpu d.memory
    match res with
    | Except.error e =>
        (Except.error (DebuggerError.Emulator e), { d with cpu := cpu1, memory := mem1 })
    | Except.ok (text, execResult) =>
        let hist := ({ eip := old_eip, cpu_snapshot := old_cpu,
                       instruction_text := text } : HistoryEntry) :: d.history
        let hist := if hist.length > d.max_history then hist.dropLast else hist
        let n := d.instructions_executed + 1
        let total := d.total_instructions + 1
        let (cpu2, new_state) :=
          match execResult with
          | ExecutionResult.Continue next_eip =>
              ({ cpu1 with eip := next_eip },
               if d.breakpoints.contains next_eip then
                 DebuggerState.AtBreakpoint next_eip
               else if n ≥ d.max_instructions then DebuggerState.LimitExceeded
               else DebuggerState.Ready)
          | ExecutionResult.Halt =>
              ({ cpu1 with halted := true }, DebuggerState.Halted)
          | ExecutionResult.Breakpoint =>
              (cpu1, DebuggerState.AtBreakpoint cpu1.eip)
          | ExecutionResult.Interrupt _ => (cpu1, DebuggerState.Ready)
        let d2 : Debugger :=
          { d with
            cpu := cpu2
            memory := mem1
            history := hist
            instructions_executed := n
            total_instructions := total
            state := new_state }
        (Except.ok
          { instruction := some text
            state := new_state
            changed_registers := d2.detect_register_changes old_cpu
            changed_memory := [] }, d2)

/-- The loop body of `Debugger::run`, with explicit fuel standing in for the
unbounded `loop`: `none` means the loop had not finished within `fuel`
iterations. -/
def Debugger.runLoop (exec : ExecOracle) :
    Nat → Debugger → Option (Except DebuggerError RunResult × Debugger)
  | 0, _ => none
  | fuel + 1, d =>
      let (r, d1) := d.step exec
      match r with
      | Except.error e => some (Except.error e, d1)
      | Except.ok sr =>
          match sr.state with
          | DebuggerState.AtBreakpoint a =>
              some (Except.ok (RunResult.Breakpoint a), d1)
          | DebuggerState.Halted => some (Except.ok RunResult.Halted, d1)
          | DebuggerState.LimitExceeded =>
              some (Except.ok (RunResult.LimitExceeded d1.instructions_executed), d1)
          | DebuggerState.Error msg => some (Except.ok (RunResult.Error msg), d1)
          | _ => Debugger.runLoop exec fuel d1

/-- `Debugger::run`: reset the per-run counter, enter the `Running` state,
and loop until a stopping state. -/
def Debugger.run (exec : ExecOracle) (fuel : Nat) (d : Debugger) :
    Option (Except DebuggerError RunResult × Debugger) :=
  Debugger.runLoop exec fuel
    { d with instructions_executed := 0, state := DebuggerState.Running }

/-- `Debugger::run_n(count)`: run once with the instruction ceiling
temporarily overridden to `count`. -/
def Debugger.run_n (exec : ExecOracle) (fuel : Nat) (count : Nat)
    (d : Debugger) : Option (Except DebuggerError RunResult × Debugger) :=
  match Debugger.run exec fuel { d with max_instructions := count } with
  | none => none
  | some (r, d1) => some (r, { d1 with max_instructions := d.max_instructions })

/-- `Debugger::step_back`: pop the most recent trace entry, restore the CPU
snapshot from it, and return to `Ready`; on an empty trace return nothing
and change nothing. -/
def Debugger.step_back (d : Debugger) : Option HistoryEntry × Debugger :=
  match d.history with
  | [] => (none, d)
  | entry :: rest =>
      (some entry,
       { d with cpu := entry.cpu_snapshot, state := DebuggerState.Ready,
                history := rest })

/-- `Debugger::patch(address, bytes)`: read the old bytes, write the new
ones, and record the patch (only when both memory operations succeed). -/
def Debugger.patch (d : Debugger) (address : Nat) (bytes : List Nat) :
    Except DebuggerError Unit × Debugger :=
  match d.memory.read_bytes address bytes.length with
  | Except.error e => (Except.error (DebuggerError.Memory e), d)
  | Except.ok old_bytes =>
      match d.memory.write_bytes address bytes with
      | (Except.error e, _) => (Except.error (DebuggerError.Memory e), d)
      | (Except.ok _, mem1) =>
          let p : MemoryPatch := ⟨address, old_bytes, bytes⟩
          (Except.ok (),
           { d with memory := mem1, patch_history := d.patch_history.record p })

/-- `Debugger::undo_patch`: pop one undo entry and apply its inverse byte
range to memory without re-recording. -/
def Debugger.undo_patch (d : Debugger) : Except DebuggerError Unit × Debugger :=
  match d.patch_history.undo with
  | (none, _) => (Except.error DebuggerError.NothingToUndo, d)
  | (some patch, h1) =>
      match d.memory.write_bytes patch.address patch.new_bytes with
      | (Except.error e, mem1) =>
          (Except.error (DebuggerError.Memory e),
           { d with memory := mem1, patch_history := h1 })
      | (Except.ok _, mem1) =>
          (Except.ok (), { d with memory := mem1, patch_history := h1 })

/-- `Debugger::redo_patch`: pop one redo entry and reapply its forward byte
range to memory without re-recording. -/
def Debugger.redo_patch (d : Debugger) : Except DebuggerError Unit × Debugger :=
  match d.patch_history.redo with
  | (none, _) => (Except.error DebuggerError.NothingToRedo, d)
  | (some patch, h1) =>
      match d.memory.write_bytes patch.address patch.new_bytes with
      | (Except.error e, mem1) =>
          (Except.error (DebuggerError.Memory e),
           { d with memory := mem1, patch_history := h1 })
      | (Except.ok _, mem1) =>
          (Except.ok (), { d with memory := mem1, patch_history := h1 })

/-! ## Memory search (`debugger/search.rs`) -/

/-- Search result containing address and matched data. -/
structure SearchResult where
  address : Nat
  data : List Nat
deriving DecidableEq, Repr

/-- `u8::is_ascii_graphic`: `0x21 ..= 0x7E`. -/
def isAsciiGraphic (b : Nat) : Bool := 0x21 ≤ b ∧ b ≤ 0x7E

/-- `u8::is_ascii_whitespace`: space, tab, newline, form feed, carriage
return. -/
def isAsciiWhitespace (b : Nat) : Bool :=
  b = 0x20 ∨ b = 0x09 ∨ b = 0x0A ∨ b = 0x0C ∨ b = 0x0D

/-- A byte the `find_strings` scanner treats as part of a string. -/
def isStringByte (b : Nat) : Bool := isAsciiGraphic b || isAsciiWhitespace b

/-- The scanning loop of `MemorySearch::find_strings`: walk the bytes with
the running index `i`, the bytes of the current run (`current_string`), the
optional start address of the current run (`string_start`) and the results
accumulated so far. -/
def findStringsLoop (start_address min_length : Nat) :
    List Nat → Nat → List Nat → Option Nat → List SearchResult →
      List SearchResult
  | [], _, _, _, results => results
  | byte :: rest, i, current_string, string_start, results =>
      if byte = 0 then
        let results :=
          if current_string.length ≥ min_length then
            match string_start with
            | some start => results ++ [⟨start, current_string⟩]
            | none => results
          else results
        findStringsLoop start_address min_length rest (i + 1) [] none results
      else if isStringByte byte then
        let string_start :=
          if string_start.isNone then some (start_address + i) else string_start
        findStringsLoop start_address min_length rest (i + 1)
          (current_string ++ [byte]) string_start results
      else
        findStringsLoop start_address min_length rest (i + 1) [] none results

/-- `MemorySearch::find_strings`: validate the range, read it, and scan for
null-terminated printable runs. -/
def MemorySearch.find_strings (memory : Memory) (min_length : Nat)
    (start_address end_address : Nat) :
    Except DebuggerError (List SearchResult) :=
  if start_address ≥ end_address then
    Except.error (DebuggerError.InvalidInput
      "Start address must be less than end address")
  else
    match memory.read_bytes start_address (end_address - start_address) with
    | Except.error e => Except.error (DebuggerError.Memory e)
    | Except.ok data =>
        Except.ok (findStringsLoop start_address min_length data 0 [] none [])

/-! ### The claim's description of `find_strings`, as its own definition

The claim describes the result as: the maximal runs of
printable-ASCII-or-whitespace bytes that are terminated by a null byte and
have length at least `min_length`, each reported at the run's start address
with the run's bytes.  The definitions below state exactly that: for every
null position `j`, the (possibly empty) maximal all-string-byte run ending
right before `j`; it is reported when it is a nonempty run of length at
least `min_length`. -/

/-- The longest all-`isStringByte` suffix of a byte list. -/
def runSuffix (data : List Nat) : List Nat :=
  (data.reverse.takeWhile isStringByte).reverse

/-- The maximal run of string bytes ending immediately before position `j`:
the longest all-`isStringByte` suffix of the first `j` bytes. -/
def maximalRunBefore (data : List Nat) (j : Nat) : List Nat :=
  runSuffix (data.take j)

/-- The start address of the current run, when there is one: how far the
maximal string-byte suffix of the scanned bytes reaches back. -/
def runStartOpt (start_address : Nat) (done : List Nat) : Option Nat :=
  if runSuffix done = [] then none
  else some (start_address + (done.length - (runSuffix done).length))

/-- The claim's characterisation of `find_strings` over the scanned bytes:
one result per null byte whose preceding maximal printable run is nonempty
and at least `min_length` long, at the run's start address. -/
def findStringsSpec (start_address min_length : Nat) (data : List Nat) :
    List SearchResult :=
  (List.range data.length).filterMap fun j =>
    match data.get? j with
    | some 0 =>
        let run := maximalRunBefore data j
        if min_length ≤ run.length ∧ run ≠ [] then
          some ⟨start_address + (j - run.length), run⟩
        else none
    | _ => none

/-! ## Concrete oracles: small decoded programs

Concrete `ExecOracle` instances used to evaluate the control layer on real
inputs.  `nopOracle` is the oracle of a code region filled with `0x90`
(NOP): every fetch decodes to the one-byte `nop`, which the executor maps
to `Continue { next_eip = eip + 1 }` with no other effect. -/

def nopOracle : ExecOracle := fun cpu mem =>
  (Except.ok ("nop", ExecutionResult.Continue (cpu.eip + 1)), cpu, mem)

/-- A 16-byte debugger whose memory holds `0x90` (NOP) everywhere. -/
def nopDebugger : Debugger :=
  { Debugger.new 16 with
    memory := ((Memory.new 16).load 0 (List.replicate 16 0x90)).2 }

/-! ## Helper lemmas about byte-range writes -/

theorem take_slice_drop (d : List Nat) (a n : Nat) :
    d.take a ++ ((d.drop a).take n ++ d.drop (a + n)) = d := by
  have h1 : d.drop (a + n) = (d.drop a).drop n := by
    rw [List.drop_drop, Nat.add_comm]
  rw [h1, List.take_append_drop, List.take_append_drop]

theorem writeRange_length (d : List Nat) (a : Nat) (b : List Nat)
    (h : a + b.length ≤ d.length) :
    (writeRange d a b).length = d.length := by
  unfold writeRange
  rw [List.length_append, List.length_append, List.length_take,
    List.length_drop]
  omega

theorem length_take_of_le' (d : List Nat) (a : Nat) (h : a ≤ d.length) :
    (d.take a).length = a := by
  rw [List.length_take]
  omega

theorem writeRange_slice (d : List Nat) (a : Nat) (b : List Nat)
    (h : a + b.length ≤ d.length) :
    ((writeRange d a b).drop a).take b.length = b := by
  unfold writeRange
  rw [List.append_assoc, List.drop_left' (length_take_of_le' d a (by omega)),
    List.take_left' rfl]

theorem writeRange_restore (d : List Nat) (a : Nat) (b : List Nat)
    (h : a + b.length ≤ d.length) :
    writeRange (writeRange d a b) a ((d.drop a).take b.length) = d := by
  have hd : b.length ≤ (d.drop a).length := by
    rw [List.length_drop]; omega
  have hlen : ((d.drop a).take b.length).length = b.length :=
    length_take_of_le' _ _ hd
  unfold writeRange
  rw [hlen]
  have h1 : (d.take a ++ b ++ d.drop (a + b.length)).take a = d.take a := by
    rw [List.take_append_of_le_length (by
      rw [List.length_append, length_take_of_le' d a (by omega)]; omega),
      List.take_append_of_le_length (by
        rw [length_take_of_le' d a (by omega)]),
      List.take_take, Nat.min_self]
  have h2 : (d.take a ++ b ++ d.drop (a + b.length)).drop (a + b.length) =
      d.drop (a + b.length) := by
    apply List.drop_left'
    rw [List.length_append, length_take_of_le' d a (by omega)]
  rw [h1, h2, List.append_assoc, take_slice_drop]

/-! ## Claim C6: out-of-bounds accesses -/

/-- **C6**: for every address `a` and access length `n` with `a + n`
exceeding the memory size, each checked read and write fails with the
out-of-bounds error (reporting the address and the buffer size, not the
access-violation error), and a failing write hands back the receiver
memory unchanged (second component `m`). -/
theorem oob_access_fails (m : Memory) (a v n : Nat) (bytes : List Nat) :
    (a + 1 > m.size →
      m.read_u8 a = Except.error (MemoryError.OutOfBounds a m.size) ∧
      m.write_u8 a v = (Except.error (MemoryError.OutOfBounds a m.size), m)) ∧
    (a + 2 > m.size →
      m.read_u16 a = Except.error (MemoryError.OutOfBounds a m.size) ∧
      m.write_u16 a v = (Except.error (MemoryError.OutOfBounds a m.size), m)) ∧
    (a + 4 > m.size →
      m.read_u32 a = Except.error (MemoryError.OutOfBounds a m.size) ∧
      m.write_u32 a v = (Except.error (MemoryError.OutOfBounds a m.size), m)) ∧
    (a + n > m.size →
      m.read_bytes a n = Except.error (MemoryError.OutOfBounds a m.size)) ∧
    (a + bytes.length > m.size →
      m.write_bytes a bytes =
        (Except.error (MemoryError.OutOfBounds a m.size), m)) := by
  refine ⟨fun h => ⟨?_, ?_⟩, fun h => ⟨?_, ?_⟩, fun h => ⟨?_, ?_⟩,
    fun h => ?_, fun h => ?_⟩ <;>
    simp_all [Memory.read_u8, Memory.read_u16, Memory.read_u32,
      Memory.read_bytes, Memory.write_u8, Memory.write_u16, Memory.write_u32,
      Memory.write_bytes, Memory.check_bounds, Memory.size, Bind.bind,
      Except.bind]

/-- Witness for C6 at a concrete memory and access. -/
theorem oob_access_fails_witness :
    (Memory.new 2).read_u8 5 =
      Except.error (MemoryError.OutOfBounds 5 (Memory.new 2).size) ∧
    (Memory.new 2).write_u8 5 7 =
      (Except.error (MemoryError.OutOfBounds 5 (Memory.new 2).size),
        Memory.new 2) ∧
    (Memory.new 2).read_bytes 5 3 =
      Except.error (MemoryError.OutOfBounds 5 (Memory.new 2).size) ∧
    (Memory.new 2).write_bytes 5 [1, 2, 3] =
      (Except.error (MemoryError.OutOfBounds 5 (Memory.new 2).size),
        Memory.new 2) := by
  have h := oob_access_fails (Memory.new 2) 5 7 3 [1, 2, 3]
  exact ⟨(h.1 (by decide)).1, (h.1 (by decide)).2,
    h.2.2.2.1 (by decide), h.2.2.2.2 (by decide)⟩

/-! ## Claim C7: write-then-read round trip -/

/-- **C7**: a successful `write_bytes(a, data)` followed by
`read_bytes(a, data.length)` (whose permission check passes) returns
exactly `data`. -/
theorem write_bytes_read_bytes (m : Memory) (a : Nat) (bytes : List Nat)
    (hw : (m.write_bytes a bytes).1 = Except.ok ())
    (hr : m.check_read a = Except.ok ()) :
    ((m.write_bytes a bytes).2).read_bytes a bytes.length =
      Except.ok bytes := by
  unfold Memory.write_bytes at hw ⊢
  rcases hb : m.check_bounds a bytes.length with e | u
  · rw [hb] at hw; simp at hw
  · rcases hwr : m.check_write a with e | u
    · rw [hb, hwr] at hw; simp at hw
    · have hbound : a + bytes.length ≤ m.data.length := by
        by_contra hc
        unfold Memory.check_bounds at hb
        rw [if_pos (by omega)] at hb
        exact absurd hb (by simp)
      show Memory.read_bytes _ a bytes.length = Except.ok bytes
      unfold Memory.read_bytes
      have hb2 : Memory.check_bounds
          { m with data := writeRange m.data a bytes } a bytes.length =
            Except.ok () := by
        unfold Memory.check_bounds
        rw [if_neg (by
          simp only [writeRange_length m.data a bytes hbound]
          omega)]
      rw [hb2]
      have hr2 : Memory.check_read
          { m with data := writeRange m.data a bytes } a = Except.ok () := hr
      rw [hr2]
      simp [writeRange_slice m.data a bytes hbound, Bind.bind, Except.bind,
        Pure.pure, Except.pure]

/-- Witness for C7 at a concrete memory, address, and byte string. -/
theorem write_bytes_read_bytes_witness :
    (((Memory.new 4).write_bytes 1 [9, 8]).2).read_bytes 1 [9, 8].length =
      Except.ok [9, 8] :=
  write_bytes_read_bytes (Memory.new 4) 1 [9, 8] (by rfl) (by rfl)

/-! ## Claim C9: permission checks consult only the first region containing
the start address -/

/-- `check_read`/`check_write` pass whenever no region contains the
address, whatever the enforcement switch. -/
theorem check_no_region (m : Memory) (a : Nat)
    (h : m.get_region a = none) :
    m.check_read a = Except.ok () ∧ m.check_write a = Except.ok () := by
  cases he : m.enforce_permissions <;>
    simp [Memory.check_read, Memory.check_write, h, he]

/-- **C9**: the permission check of every checked access consults only the
first region (in insertion order) containing the access's *start* address:
with no containing region the access passes on bounds alone; a multi-byte
access whose start address lies in a region granting the permission
succeeds whatever regions the later bytes fall into; a start address in a
denying region fails with the access violation; and `get_region` returns
the first containing region in insertion order. -/
theorem permission_first_region_only (m : Memory) (a n : Nat)
    (bytes : List Nat) (r : MemoryRegion) (pre suf : List MemoryRegion) :
    (m.get_region a = none → a + n ≤ m.size →
      m.read_bytes a n = Except.ok ((m.data.drop a).take n)) ∧
    (m.get_region a = none → a + bytes.length ≤ m.size →
      (m.write_bytes a bytes).1 = Except.ok ()) ∧
    (m.get_region a = some r → r.permissions.read = true → a + n ≤ m.size →
      m.read_bytes a n = Except.ok ((m.data.drop a).take n)) ∧
    (m.get_region a = some r → r.permissions.write = true →
      a + bytes.length ≤ m.size →
      (m.write_bytes a bytes).1 = Except.ok ()) ∧
    (m.enforce_permissions = true → m.get_region a = some r →
      r.permissions.write = false → a + bytes.length ≤ m.size →
      (m.write_bytes a bytes).1 = Except.error (MemoryError.AccessViolation a
        ("Region " ++ r.name ++ " is not writable"))) ∧
    (m.regions = pre ++ r :: suf →
      (∀ r2 ∈ pre, r2.containsAddr a = false) → r.containsAddr a = true →
      m.get_region a = some r) := by
  have hcr : m.get_region a = none ∨
      (∃ r0, m.get_region a = some r0 ∧ r0.permissions.read = true) →
      m.check_read a = Except.ok () := by
    rintro (h | ⟨r0, h, hp⟩)
    · cases he : m.enforce_permissions <;> simp [Memory.check_read, h, he]
    · cases he : m.enforce_permissions <;> simp [Memory.check_read, h, he, hp]
  have hcw : m.get_region a = none ∨
      (∃ r0, m.get_region a = some r0 ∧ r0.permissions.write = true) →
      m.check_write a = Except.ok () := by
    rintro (h | ⟨r0, h, hp⟩)
    · cases he : m.enforce_permissions <;> simp [Memory.check_write, h, he]
    · cases he : m.enforce_permissions <;> simp [Memory.check_write, h, he, hp]
  refine ⟨fun h hb => ?_, fun h hb => ?_, fun h hp hb => ?_,
    fun h hp hb => ?_, fun he h hp hb => ?_, fun hreg hpre hr => ?_⟩
  · simp [Memory.read_bytes, Memory.check_bounds, Memory.size] at hb ⊢
    simp [Nat.not_lt.mpr hb, hcr (Or.inl h), Bind.bind, Except.bind,
      Pure.pure, Except.pure]
  · simp [Memory.size] at hb
    simp [Memory.write_bytes, Memory.check_bounds,
      if_neg (Nat.not_lt.mpr hb), hcw (Or.inl h)]
  · simp [Memory.read_bytes, Memory.check_bounds, Memory.size] at hb ⊢
    simp [Nat.not_lt.mpr hb, hcr (Or.inr ⟨r, h, hp⟩), Bind.bind, Except.bind,
      Pure.pure, Except.pure]
  · simp [Memory.size] at hb
    simp [Memory.write_bytes, Memory.check_bounds,
      if_neg (Nat.not_lt.mpr hb), hcw (Or.inr ⟨r, h, hp⟩)]
  · have hviol : m.check_write a = Except.error (MemoryError.AccessViolation a
        ("Region " ++ r.name ++ " is not writable")) := by
      simp [Memory.check_write, he, h, hp]
    simp [Memory.size] at hb
    simp [Memory.write_bytes, Memory.check_bounds,
      if_neg (Nat.not_lt.mpr hb), hviol]
  · unfold Memory.get_region
    rw [hreg]
    clear hreg
    induction pre with
    | nil =>
        rw [List.nil_append]
        exact List.find?_cons_of_pos (p := fun r => r.containsAddr a) suf hr
    | cons r2 rest ih =>
        rw [List.cons_append]
        have hneg : ¬ (fun x : MemoryRegion => x.containsAddr a) r2 = true := by
          simp [hpre r2 (by simp)]
        have hstep := List.find?_cons_of_neg
          (p := fun x : MemoryRegion => x.containsAddr a) (rest ++ r :: suf) hneg
        rw [hstep]
        exact ih (fun r3 h3 => hpre r3 (List.mem_cons_of_mem _ h3))

/-- Witness for C9: two overlapping regions; the first one containing the
start address grants writing, the second (covering the later bytes of the
access) denies it, and the two-byte write still succeeds.  Also a
region-free address passes, and a read/write in the denying region fails. -/
theorem permission_first_region_only_witness :
    (((((Memory.new 4).set_enforce_permissions true).add_region
        ⟨"lo", 0, 1, Permissions.rw⟩).add_region
        ⟨"hi", 1, 4, Permissions.ro⟩).write_bytes 0 [5, 6]).1 =
      Except.ok () ∧
    (((((Memory.new 4).set_enforce_permissions true).add_region
        ⟨"lo", 0, 1, Permissions.rw⟩).add_region
        ⟨"hi", 1, 4, Permissions.ro⟩).write_bytes 1 [7]).1 =
      Except.error (MemoryError.AccessViolation 1
        ("Region " ++ "hi" ++ " is not writable")) := by
  have h := permission_first_region_only
    ((((Memory.new 4).set_enforce_permissions true).add_region
        ⟨"lo", 0, 1, Permissions.rw⟩).add_region
        ⟨"hi", 1, 4, Permissions.ro⟩) 0 0 [5, 6]
    ⟨"lo", 0, 1, Permissions.rw⟩ [] [⟨"hi", 1, 4, Permissions.ro⟩]
  have h2 := permission_first_region_only
    ((((Memory.new 4).set_enforce_permissions true).add_region
        ⟨"lo", 0, 1, Permissions.rw⟩).add_region
        ⟨"hi", 1, 4, Permissions.ro⟩) 1 0 [7]
    ⟨"hi", 1, 4, Permissions.ro⟩ [] []
  refine ⟨h.2.2.2.1 (by decide) (by decide) (by decide),
    h2.2.2.2.2.1 (by decide) (by decide) (by decide) (by decide)⟩

/-! ## Claim C5: concrete flag cases -/

/-- **C5**: `SUB` of two equal operands (5 and 5) yields 0 and sets ZF;
`0 - 1` under 32-bit wrap yields `0xFFFFFFFF` and sets CF and SF; `INC` of
`0x7FFFFFFF` sets OF and leaves CF at its prior value; and `AND`/`OR`/`XOR`
clear CF and OF for every pair of operands. -/
theorem concrete_flag_cases (f : Eflags) (op1 op2 : Nat) :
    ((exec_sub_val f 5 5).2 = 0 ∧ (exec_sub_val f 5 5).1.zf = true) ∧
    (sub32 0 1 = 0xFFFFFFFF ∧ (exec_sub_val f 0 1).1.cf = true ∧
      (exec_sub_val f 0 1).1.sf = true) ∧
    ((exec_inc_val f 0x7FFFFFFF).1.of = true ∧
      (exec_inc_val f 0x7FFFFFFF).1.cf = f.cf) ∧
    ((exec_and_val f op1 op2).1.cf = false ∧
      (exec_and_val f op1 op2).1.of = false ∧
      (exec_or_val f op1 op2).1.cf = false ∧
      (exec_or_val f op1 op2).1.of = false ∧
      (exec_xor_val f op1 op2).1.cf = false ∧
      (exec_xor_val f op1 op2).1.of = false) :=
  ⟨⟨rfl, rfl⟩, ⟨rfl, rfl, rfl⟩, ⟨rfl, rfl⟩, rfl, rfl, rfl, rfl, rfl, rfl⟩

/-! ## Claim C1: carry flag of the shift instructions

The claim (and the spec) say the carry flag takes the last bit shifted out.
In the source, each of `exec_shl`, `exec_shr` and `exec_sar` assigns that
bit to `cpu.eflags.cf` and *then* calls `update_logical`, which
unconditionally clears `cf`; the assigned carry is thus always overwritten
(and the `count == 1` overflow rule in `exec_shl` reads the already-cleared
`cf`).  The theorem below evaluates the embedded shift semantics at inputs
whose last shifted-out bit is 1 and shows the resulting carry flag is
nevertheless `false` — even when the flag was set before — while the
claim's no-op conjunct (masked count zero changes nothing) does hold. -/

/-- **C1**: at concrete failing inputs, the last bit shifted out is 1 yet
the carry flag after SHL/SHR/SAR is `false` (the `update_logical` call made
after the carry assignment clears it); a masked count of zero leaves flags
and operand unchanged. -/
theorem shift_carry_clobbered :
    (0x80000000 / 2 ^ (32 - 1)) % 2 = 1 ∧
    (exec_shl_val { Eflags.new with cf := true } 0x80000000 1).1.cf = false ∧
    (1 / 2 ^ (1 - 1)) % 2 = 1 ∧
    (exec_shr_val { Eflags.new with cf := true } 1 1).1.cf = false ∧
    (exec_sar_val { Eflags.new with cf := true } 1 1).1.cf = false ∧
    exec_shl_val { Eflags.new with cf := true } 5 32 =
      ({ Eflags.new with cf := true }, 5) ∧
    exec_shr_val { Eflags.new with cf := true } 5 64 =
      ({ Eflags.new with cf := true }, 5) ∧
    exec_sar_val { Eflags.new with cf := true } 5 32 =
      ({ Eflags.new with cf := true }, 5) := by
  decide

/-! ## Claim C2: patch / undo / redo -/

/-- The length of the byte range handed back by a successful bounded
slice. -/
theorem slice_length (d : List Nat) (a n : Nat) (h : a + n ≤ d.length) :
    ((d.drop a).take n).length = n :=
  length_take_of_le' _ _ (by rw [List.length_drop]; omega)

/-- `check_write` does not look at the byte buffer. -/
theorem check_write_data (m : Memory) (x : List Nat) (a : Nat) :
    Memory.check_write { m with data := x } a = m.check_write a := rfl

/-- `check_read` does not look at the byte buffer. -/
theorem check_read_data (m : Memory) (x : List Nat) (a : Nat) :
    Memory.check_read { m with data := x } a = m.check_read a := rfl

/-- Successful `write_bytes`, forward direction. -/
theorem write_bytes_ok (m : Memory) (a : Nat) (b : List Nat)
    (hb : a + b.length ≤ m.data.length)
    (hw : m.check_write a = Except.ok ()) :
    m.write_bytes a b = (Except.ok (), { m with data := writeRange m.data a b }) := by
  unfold Memory.write_bytes Memory.check_bounds
  rw [if_neg (by omega), hw]

/-- Successful `write_bytes`, inversion. -/
theorem write_bytes_ok_inv (m : Memory) (a : Nat) (b : List Nat) (m1 : Memory)
    (h : m.write_bytes a b = (Except.ok (), m1)) :
    a + b.length ≤ m.data.length ∧ m.check_write a = Except.ok () ∧
      m1 = { m with data := writeRange m.data a b } := by
  unfold Memory.write_bytes Memory.check_bounds at h
  by_cases hb : a + b.length > m.data.length
  · rw [if_pos hb] at h
    simp at h
  · rw [if_neg hb] at h
    rcases hcw : m.check_write a with e | u
    · rw [hcw] at h; simp at h
    · rw [hcw] at h
      cases u
      refine ⟨by omega, rfl, ?_⟩
      exact (Prod.mk.injEq _ _ _ _ ▸ h).2.symm

/-- Successful `read_bytes`, inversion. -/
theorem read_bytes_ok_inv (m : Memory) (a n : Nat) (old : List Nat)
    (h : m.read_bytes a n = Except.ok old) :
    a + n ≤ m.data.length ∧ m.check_read a = Except.ok () ∧
      old = (m.data.drop a).take n := by
  unfold Memory.read_bytes Memory.check_bounds at h
  by_cases hb : a + n > m.data.length
  · rw [if_pos hb] at h
    simp [Bind.bind, Except.bind] at h
  · rw [if_neg hb] at h
    rcases hcr : m.check_read a with e | u
    · rw [hcr] at h; simp [Bind.bind, Except.bind] at h
    · rw [hcr] at h
      cases u
      simp [Bind.bind, Except.bind, Pure.pure, Except.pure] at h
      exact ⟨by omega, rfl, h.symm⟩

/-- `History.record` keeps the newly recorded patch on top of the undo
stack (the eviction past `max_history` removes the oldest entry, never the
newest) and clears the redo stack. -/
theorem record_head (h : History) (p : MemoryPatch)
    (hmax : 1 ≤ h.max_history) :
    ∃ rest, (h.record p).undo_stack = p :: rest ∧
      (h.record p).redo_stack = [] := by
  by_cases hlen : (p :: h.undo_stack).length > h.max_history
  · have hne : h.undo_stack ≠ [] := by
      intro hnil
      rw [hnil] at hlen
      simp at hlen
      omega
    refine ⟨h.undo_stack.dropLast, ?_, rfl⟩
    simp only [History.record]
    rw [if_pos hlen]
    exact List.dropLast_cons_of_ne_nil hne
  · refine ⟨h.undo_stack, ?_, rfl⟩
    simp only [History.record]
    rw [if_neg hlen]

/-- `History.undo` on a nonempty undo stack. -/
theorem history_undo_eq (h : History) (p : MemoryPatch)
    (rest : List MemoryPatch) (hu : h.undo_stack = p :: rest) :
    h.undo = (some p.inverse,
      { h with undo_stack := rest, redo_stack := p :: h.redo_stack }) := by
  unfold History.undo
  rw [hu]

/-- `History.redo` on a nonempty redo stack. -/
theorem history_redo_eq (h : History) (p : MemoryPatch)
    (rest : List MemoryPatch) (hr : h.redo_stack = p :: rest) :
    h.redo = (some p,
      { h with redo_stack := rest, undo_stack := p :: h.undo_stack }) := by
  unfold History.redo
  rw [hr]

/-- `Debugger.undo_patch` when the undo stack pops a patch and the inverse
write succeeds. -/
theorem undo_patch_eq (dbg : Debugger) (p : MemoryPatch) (h1 : History)
    (mem1 : Memory)
    (hu : dbg.patch_history.undo = (some p, h1))
    (hw : dbg.memory.write_bytes p.address p.new_bytes =
      (Except.ok (), mem1)) :
    dbg.undo_patch =
      (Except.ok (), { dbg with memory := mem1, patch_history := h1 }) := by
  unfold Debugger.undo_patch
  rw [hu]
  simp only [hw]

/-- `Debugger.redo_patch` when the redo stack pops a patch and the forward
write succeeds. -/
theorem redo_patch_eq (dbg : Debugger) (p : MemoryPatch) (h1 : History)
    (mem1 : Memory)
    (hr : dbg.patch_history.redo = (some p, h1))
    (hw : dbg.memory.write_bytes p.address p.new_bytes =
      (Except.ok (), mem1)) :
    dbg.redo_patch =
      (Except.ok (), { dbg with memory := mem1, patch_history := h1 }) := by
  unfold Debugger.redo_patch
  rw [hr]
  simp only [hw]

/-- `Debugger.redo_patch` on an empty redo stack fails with the
nothing-to-redo error. -/
theorem redo_patch_nil (dbg : Debugger)
    (hr : dbg.patch_history.redo_stack = []) :
    dbg.redo_patch = (Except.error DebuggerError.NothingToRedo, dbg) := by
  unfold Debugger.redo_patch History.redo
  rw [hr]

/-- Successful `Debugger.patch`, inversion: the old bytes were read, the
new bytes written, and the patch recorded. -/
theorem patch_ok_inv (d : Debugger) (a : Nat) (bytes : List Nat)
    (hok : (d.patch a bytes).1 = Except.ok ()) :
    ∃ old, d.memory.read_bytes a bytes.length = Except.ok old ∧
      d.patch a bytes =
        (Except.ok (),
         { d with
            memory := { d.memory with
              data := writeRange d.memory.data a bytes }
            patch_history := d.patch_history.record ⟨a, old, bytes⟩ }) := by
  rcases hrb : d.memory.read_bytes a bytes.length with e | old
  · exfalso
    unfold Debugger.patch at hok
    rw [hrb] at hok
    simp at hok
  · rcases hwb : d.memory.write_bytes a bytes with ⟨r1, mem1⟩
    cases r1 with
    | error e =>
        exfalso
        unfold Debugger.patch at hok
        rw [hrb, hwb] at hok
        simp at hok
    | ok u =>
        cases u
        obtain ⟨hbound2, hcw, hmem1⟩ := write_bytes_ok_inv _ _ _ _ hwb
        refine ⟨old, ?_, ?_⟩
        · exact rfl
        · unfold Debugger.patch
          rw [hrb, hwb, hmem1]

/-- **C2**: for a successful `patch(a, bytes)`: `undo_patch()` succeeds and
rewrites memory back to exactly the pre-patch bytes; `redo_patch()` after
that undo succeeds and reapplies `bytes` exactly (memory equals the
post-patch state again); and any successful `patch` call empties the redo
stack, after which `redo_patch()` fails with the nothing-to-redo error. -/
theorem patch_undo_redo (d : Debugger) (a : Nat) (bytes : List Nat)
    (hmax : 1 ≤ d.patch_history.max_history)
    (hok : (d.patch a bytes).1 = Except.ok ()) :
    ((d.patch a bytes).2.undo_patch).1 = Except.ok () ∧
    ((d.patch a bytes).2.undo_patch).2.memory.data = d.memory.data ∧
    (((d.patch a bytes).2.undo_patch).2.redo_patch).1 = Except.ok () ∧
    (((d.patch a bytes).2.undo_patch).2.redo_patch).2.memory.data =
      (d.patch a bytes).2.memory.data ∧
    (∀ (d2 : Debugger) (a2 : Nat) (b2 : List Nat),
      (d2.patch a2 b2).1 = Except.ok () →
      (d2.patch a2 b2).2.patch_history.redo_stack = [] ∧
      ((d2.patch a2 b2).2.redo_patch).1 =
        Except.error DebuggerError.NothingToRedo) := by
  have hclear : ∀ (d2 : Debugger) (a2 : Nat) (b2 : List Nat),
      (d2.patch a2 b2).1 = Except.ok () →
      (d2.patch a2 b2).2.patch_history.redo_stack = [] ∧
      ((d2.patch a2 b2).2.redo_patch).1 =
        Except.error DebuggerError.NothingToRedo := by
    intro d2 a2 b2 h2
    obtain ⟨old2, _, hp2⟩ := patch_ok_inv d2 a2 b2 h2
    have hredo : (d2.patch a2 b2).2.patch_history.redo_stack = [] := by
      rw [hp2]
      rfl
    refine ⟨hredo, ?_⟩
    rw [redo_patch_nil _ hredo]
  obtain ⟨old, hrb, hpatch⟩ := patch_ok_inv d a bytes hok
  obtain ⟨hbound, hcrd, holdeq⟩ := read_bytes_ok_inv _ _ _ _ hrb
  have hcw : d.memory.check_write a = Except.ok () := by
    rcases hwb : d.memory.write_bytes a bytes with ⟨r1, mem1⟩
    cases r1 with
    | error e =>
        exfalso
        unfold Debugger.patch at hok
        rw [hrb, hwb] at hok
        simp at hok
    | ok u =>
        cases u
        exact (write_bytes_ok_inv _ _ _ _ hwb).2.1
  have holdlen : old.length = bytes.length := by
    rw [holdeq]
    exact slice_length _ _ _ hbound
  set mem1 : Memory := { d.memory with data := writeRange d.memory.data a bytes }
    with hmem1def
  set dp : Debugger :=
      { d with
        memory := mem1
        patch_history := d.patch_history.record ⟨a, old, bytes⟩ }
    with hdpdef
  have hdp2 : (d.patch a bytes).2 = dp := by rw [hpatch]
  obtain ⟨rest, hrec_undo, hrec_redo⟩ :=
    record_head d.patch_history ⟨a, old, bytes⟩ hmax
  have hmem1len : mem1.data.length = d.memory.data.length :=
    writeRange_length _ _ _ hbound
  have hrestore : writeRange mem1.data a old = d.memory.data := by
    show writeRange (writeRange d.memory.data a bytes) a old = d.memory.data
    rw [holdeq]
    exact writeRange_restore _ _ _ hbound
  -- the undo step
  have hundo_hist : dp.patch_history.undo =
      (some (MemoryPatch.inverse ⟨a, old, bytes⟩),
       { dp.patch_history with
          undo_stack := rest
          redo_stack := ((⟨a, old, bytes⟩ : MemoryPatch) ::
            dp.patch_history.redo_stack) }) :=
    history_undo_eq _ _ _ hrec_undo
  have hwrite_old : mem1.write_bytes a old =
      (Except.ok (), { mem1 with data := writeRange mem1.data a old }) := by
    apply write_bytes_ok
    · rw [holdlen, hmem1len]
      exact hbound
    · exact hcw
  set mem2 : Memory := { mem1 with data := writeRange mem1.data a old }
    with hmem2def
  set hist2 : History :=
      { dp.patch_history with
        undo_stack := rest
        redo_stack := ((⟨a, old, bytes⟩ : MemoryPatch) ::
          dp.patch_history.redo_stack) }
    with hhist2def
  have hundo : dp.undo_patch =
      (Except.ok (), { dp with memory := mem2, patch_history := hist2 }) :=
    undo_patch_eq dp ⟨a, bytes, old⟩ hist2 mem2 hundo_hist hwrite_old
  set d2 : Debugger := { dp with memory := mem2, patch_history := hist2 }
    with hd2def
  have hd2data : d2.memory.data = d.memory.data := hrestore
  -- the redo step
  have hredo_hist : d2.patch_history.redo =
      (some (⟨a, old, bytes⟩ : MemoryPatch),
       { d2.patch_history with
          redo_stack := dp.patch_history.redo_stack
          undo_stack := ((⟨a, old, bytes⟩ : MemoryPatch) ::
            d2.patch_history.undo_stack) }) :=
    history_redo_eq _ _ _ rfl
  have hwrite_new : mem2.write_bytes a bytes =
      (Except.ok (), { mem2 with data := writeRange mem2.data a bytes }) := by
    apply write_bytes_ok
    · show a + bytes.length ≤ (writeRange mem1.data a old).length
      rw [hrestore]
      exact hbound
    · exact hcw
  have hredo : d2.redo_patch =
      (Except.ok (),
       { d2 with
          memory := { mem2 with data := writeRange mem2.data a bytes }
          patch_history :=
            ({ d2.patch_history with
              redo_stack := dp.patch_history.redo_stack
              undo_stack := ((⟨a, old, bytes⟩ : MemoryPatch) ::
                d2.patch_history.undo_stack) }) }) :=
    redo_patch_eq d2 ⟨a, old, bytes⟩ _ _ hredo_hist hwrite_new
  have hredo_data : writeRange mem2.data a bytes = mem1.data := by
    show writeRange (writeRange mem1.data a old) a bytes = mem1.data
    rw [hrestore]
  refine ⟨?_, ?_, ?_, ?_, hclear⟩
  · rw [hdp2, hundo]
  · rw [hdp2, hundo]
    exact hd2data
  · rw [hdp2, hundo]
    show (d2.redo_patch).1 = Except.ok ()
    rw [hredo]
  · rw [hdp2, hundo]
    show (d2.redo_patch).2.memory.data = dp.memory.data
    rw [hredo]
    exact hredo_data

/-- Witness for C2 at a concrete debugger, address, and byte string. -/
theorem patch_undo_redo_witness :
    (((Debugger.new 4).patch 1 [7, 9]).2.undo_patch).1 = Except.ok () ∧
    (((Debugger.new 4).patch 1 [7, 9]).2.undo_patch).2.memory.data =
      (Debugger.new 4).memory.data := by
  have h := patch_undo_redo (Debugger.new 4) 1 [7, 9] (by decide) (by rfl)
  exact ⟨h.1, h.2.1⟩


/-! ## Claims C3 and C10: the execution trace and `step_back` -/

/-- `step_back` on a nonempty trace pops the most recent entry, restores
the CPU snapshot, and returns to `Ready`. -/
theorem step_back_cons (d : Debugger) (e : HistoryEntry)
    (rest : List HistoryEntry) (hh : d.history = e :: rest) :
    d.step_back = (some e,
      { d with cpu := e.cpu_snapshot, state := DebuggerState.Ready,
               history := rest }) := by
  unfold Debugger.step_back
  rw [hh]

/-- `step_back` on an empty trace returns nothing and changes nothing. -/
theorem step_back_nil (d : Debugger) (hh : d.history = []) :
    d.step_back = (none, d) := by
  unfold Debugger.step_back
  rw [hh]

/-- A successful `step` pushed the pre-step CPU snapshot (with the pre-step
`eip`) on top of the trace, evicting at most the oldest entry, and left
`max_history` unchanged. -/
theorem step_ok_inv (exec : ExecOracle) (d : Debugger) (sr : StepResult)
    (h : (d.step exec).1 = Except.ok sr) :
    ∃ text,
      (d.step exec).2.history =
        (if ((⟨d.cpu.eip, d.cpu, text⟩ : HistoryEntry) :: d.history).length >
            d.max_history
         then ((⟨d.cpu.eip, d.cpu, text⟩ : HistoryEntry) :: d.history).dropLast
         else (⟨d.cpu.eip, d.cpu, text⟩ : HistoryEntry) :: d.history) ∧
      (d.step exec).2.max_history = d.max_history := by
  unfold Debugger.step at h ⊢
  by_cases hterm : d.state = DebuggerState.Halted ∨
      d.state = DebuggerState.LimitExceeded
  · rw [if_pos hterm] at h
    simp at h
  · rw [if_neg hterm] at h ⊢
    rcases hexec : exec d.cpu d.memory with ⟨res, cpu1, mem1⟩
    cases res with
    | error e => simp [hexec] at h
    | ok p =>
        rcases p with ⟨text, er⟩
        refine ⟨text, ?_, ?_⟩ <;> cases er <;> rfl

/-- **C3**: after a successful `step()`, `step_back()` pops an entry whose
snapshot is exactly the pre-step CPU state, restores the CPU to it, enters
`Ready`, and leaves memory at its post-step content; after two successful
steps, two `step_back()` calls restore the intermediate and then the
original CPU state (reverse order); on an empty trace `step_back()` returns
nothing and changes nothing. -/
theorem step_back_restores (exec : ExecOracle) (d : Debugger)
    (sr sr' : StepResult) (hmax : 2 ≤ d.max_history)
    (h1 : (d.step exec).1 = Except.ok sr) :
    (∃ e, ((d.step exec).2.step_back).1 = some e ∧
      e.cpu_snapshot = d.cpu ∧ e.eip = d.cpu.eip) ∧
    ((d.step exec).2.step_back).2.cpu = d.cpu ∧
    ((d.step exec).2.step_back).2.state = DebuggerState.Ready ∧
    ((d.step exec).2.step_back).2.memory = (d.step exec).2.memory ∧
    (((d.step exec).2.step exec).1 = Except.ok sr' →
      ((((d.step exec).2.step exec).2.step_back).2.cpu = (d.step exec).2.cpu ∧
       (((((d.step exec).2.step exec).2.step_back).2.step_back).2.cpu = d.cpu))) ∧
    (∀ d0 : Debugger, d0.history = [] → d0.step_back = (none, d0)) := by
  obtain ⟨t1, hh1, hm1⟩ := step_ok_inv exec d sr h1
  obtain ⟨rest1, hrest1⟩ : ∃ rest1, (d.step exec).2.history =
      (⟨d.cpu.eip, d.cpu, t1⟩ : HistoryEntry) :: rest1 := by
    rw [hh1]
    by_cases hc : ((⟨d.cpu.eip, d.cpu, t1⟩ : HistoryEntry) :: d.history).length >
        d.max_history
    · rw [if_pos hc]
      have hne : d.history ≠ [] := by
        intro h0
        rw [h0] at hc
        simp at hc
        omega
      rw [List.dropLast_cons_of_ne_nil hne]
      exact ⟨_, rfl⟩
    · rw [if_neg hc]
      exact ⟨_, rfl⟩
  have hsb1 := step_back_cons _ _ _ hrest1
  refine ⟨⟨⟨d.cpu.eip, d.cpu, t1⟩, by rw [hsb1], rfl, rfl⟩,
    by rw [hsb1], by rw [hsb1], by rw [hsb1], ?_, fun d0 h0 => step_back_nil d0 h0⟩
  intro h2
  obtain ⟨t2, hh2, hm2⟩ := step_ok_inv exec (d.step exec).2 sr' h2
  obtain ⟨rest3, hrest3⟩ : ∃ rest3, ((d.step exec).2.step exec).2.history =
      (⟨(d.step exec).2.cpu.eip, (d.step exec).2.cpu, t2⟩ : HistoryEntry) ::
        (⟨d.cpu.eip, d.cpu, t1⟩ : HistoryEntry) :: rest3 := by
    rw [hh2, hrest1, hm1]
    by_cases hc :
        ((⟨(d.step exec).2.cpu.eip, (d.step exec).2.cpu, t2⟩ : HistoryEntry) ::
          (⟨d.cpu.eip, d.cpu, t1⟩ : HistoryEntry) :: rest1).length >
          d.max_history
    · rw [if_pos hc]
      have hne : rest1 ≠ [] := by
        intro h0
        rw [h0] at hc
        simp at hc
        omega
      rw [List.dropLast_cons_of_ne_nil (by simp),
        List.dropLast_cons_of_ne_nil hne]
      exact ⟨_, rfl⟩
    · rw [if_neg hc]
      exact ⟨_, rfl⟩
  have hsb2 := step_back_cons _ _ _ hrest3
  constructor
  · rw [hsb2]
  · have hsb3 := step_back_cons (((d.step exec).2.step exec).2.step_back).2
      (⟨d.cpu.eip, d.cpu, t1⟩ : HistoryEntry) rest3 (by rw [hsb2])
    rw [hsb3]

/-- Witness for C3: one NOP step on the concrete NOP debugger, then a
`step_back`. -/
theorem step_back_restores_witness :
    ((nopDebugger.step nopOracle).2.step_back).2.cpu = nopDebugger.cpu ∧
    ((nopDebugger.step nopOracle).2.step_back).2.state =
      DebuggerState.Ready := by
  have h := step_back_restores nopOracle nopDebugger
    { instruction := some "nop", state := DebuggerState.Ready,
      changed_registers := ["EIP"], changed_memory := [] }
    { instruction := some "nop", state := DebuggerState.Ready,
      changed_registers := ["EIP"], changed_memory := [] }
    (by decide) (by rfl)
  exact ⟨h.2.1, h.2.2.1⟩

/-- `step` only reports the already-halted error from its terminal-state
guard. -/
theorem step_no_already_halted (exec : ExecOracle) (d : Debugger)
    (hst : ¬(d.state = DebuggerState.Halted ∨
      d.state = DebuggerState.LimitExceeded)) :
    (d.step exec).1 ≠ Except.error DebuggerError.AlreadyHalted := by
  unfold Debugger.step
  rw [if_neg hst]
  rcases hexec : exec d.cpu d.memory with ⟨res, cpu1, mem1⟩
  cases res with
  | error err => simp
  | ok p =>
      rcases p with ⟨text, er⟩
      cases er <;> simp

/-- `step` succeeds whenever the guard passes and the executor succeeds. -/
theorem step_ok_of_exec_ok (exec : ExecOracle) (d : Debugger)
    (hst : ¬(d.state = DebuggerState.Halted ∨
      d.state = DebuggerState.LimitExceeded))
    (text : String) (er : ExecutionResult) (cpu1 : CpuState) (mem1 : Memory)
    (hexec : exec d.cpu d.memory = (Except.ok (text, er), cpu1, mem1)) :
    ∃ sr, (d.step exec).1 = Except.ok sr := by
  unfold Debugger.step
  rw [if_neg hst, hexec]
  cases er <;> exact ⟨_, rfl⟩

/-- **C10**: a successful `step_back()` (nonempty trace) always lands in the
`Ready` state, whatever state the debugger was in — including the
otherwise-terminal `Halted` and `LimitExceeded` — and a following `step()`
is never rejected with the already-halted error; it succeeds whenever the
executor succeeds. -/
theorem step_back_exits_terminal (d : Debugger) (e : HistoryEntry)
    (rest : List HistoryEntry) (hh : d.history = e :: rest) :
    (d.step_back).1 = some e ∧
    (d.step_back).2.state = DebuggerState.Ready ∧
    (∀ exec : ExecOracle,
      ((d.step_back).2.step exec).1 ≠
        Except.error DebuggerError.AlreadyHalted) ∧
    (∀ (exec : ExecOracle) (text : String) (er : ExecutionResult)
      (cpu1 : CpuState) (mem1 : Memory),
      exec (d.step_back).2.cpu (d.step_back).2.memory =
        (Except.ok (text, er), cpu1, mem1) →
      ∃ sr : StepResult, ((d.step_back).2.step exec).1 = Except.ok sr) := by
  have hsb := step_back_cons _ _ _ hh
  refine ⟨by rw [hsb], by rw [hsb], ?_, ?_⟩
  · intro exec
    rw [hsb]
    exact step_no_already_halted exec _ (by simp)
  · intro exec text er cpu1 mem1 hexec
    rw [hsb] at hexec ⊢
    exact step_ok_of_exec_ok exec _ (by simp) text er cpu1 mem1 hexec

/-- Witness for C10: a debugger stuck in `Halted` with one trace entry
steps back into `Ready`. -/
theorem step_back_exits_terminal_witness :
    (({ Debugger.new 4 with
        state := DebuggerState.Halted
        history := [⟨0, CpuState.default, "nop"⟩] } : Debugger).step_back).1 =
      some ⟨0, CpuState.default, "nop"⟩ ∧
    (({ Debugger.new 4 with
        state := DebuggerState.Halted
        history := [⟨0, CpuState.default, "nop"⟩] } : Debugger).step_back).2.state =
      DebuggerState.Ready := by
  have h := step_back_exits_terminal
    { Debugger.new 4 with
      state := DebuggerState.Halted
      history := [⟨0, CpuState.default, "nop"⟩] }
    ⟨0, CpuState.default, "nop"⟩ [] (by rfl)
  exact ⟨h.1, h.2.1⟩

/-! ## Claim C4: the instruction ceiling and `LimitExceeded` -/

/-- `step` in a terminal state is rejected outright. -/
theorem step_terminal (exec : ExecOracle) (d : Debugger)
    (hst : d.state = DebuggerState.Halted ∨
      d.state = DebuggerState.LimitExceeded) :
    d.step exec = (Except.error DebuggerError.AlreadyHalted, d) := by
  unfold Debugger.step
  rw [if_pos hst]

/-- `step` when the executor reports an error: the error propagates and the
(possibly partially mutated) CPU and memory are kept. -/
theorem step_error_eq (exec : ExecOracle) (d : Debugger) (e : EmulatorError)
    (cpu1 : CpuState) (mem1 : Memory)
    (hst : ¬(d.state = DebuggerState.Halted ∨
      d.state = DebuggerState.LimitExceeded))
    (hexec : exec d.cpu d.memory = (Except.error e, cpu1, mem1)) :
    d.step exec = (Except.error (DebuggerError.Emulator e),
      { d with cpu := cpu1, memory := mem1 }) := by
  unfold Debugger.step
  rw [if_neg hst, hexec]

/-- `step` on an interrupt outcome: the state becomes `Ready` (no limit
check) and the CPU/memory are whatever the executor left. -/
theorem step_interrupt_inv (exec : ExecOracle) (d : Debugger) (t : String)
    (v : Nat) (cpu1 : CpuState) (mem1 : Memory)
    (hst : ¬(d.state = DebuggerState.Halted ∨
      d.state = DebuggerState.LimitExceeded))
    (hexec : exec d.cpu d.memory =
      (Except.ok (t, ExecutionResult.Interrupt v), cpu1, mem1)) :
    ∃ sr d2, d.step exec = (Except.ok sr, d2) ∧
      sr.state = DebuggerState.Ready ∧ d2.cpu = cpu1 ∧ d2.memory = mem1 ∧
      d2.max_instructions = d.max_instructions := by
  unfold Debugger.step
  rw [if_neg hst, hexec]
  exact ⟨_, _, rfl, rfl, rfl, rfl, rfl⟩

/-- Full inversion of a successful `step`: the per-run counter went up by
one, the ceiling is unchanged, the reported state is the debugger's new
state, `LimitExceeded` is only reported once the incremented counter
reaches the ceiling, and a `Ready` outcome is either an interrupt (whose
step skips the limit check) or a continue with the counter still below the
ceiling. -/
theorem step_ok_full_inv (exec : ExecOracle) (d : Debugger)
    (sr : StepResult) (d1 : Debugger)
    (hst : ¬(d.state = DebuggerState.Halted ∨
      d.state = DebuggerState.LimitExceeded))
    (h : d.step exec = (Except.ok sr, d1)) :
    d1.max_instructions = d.max_instructions ∧
    d1.instructions_executed = d.instructions_executed + 1 ∧
    (sr.state = DebuggerState.Ready ∨
     sr.state = DebuggerState.Halted ∨
     (∃ a, sr.state = DebuggerState.AtBreakpoint a) ∨
     (sr.state = DebuggerState.LimitExceeded ∧
       d.instructions_executed + 1 ≥ d.max_instructions)) ∧
    (sr.state = DebuggerState.Ready →
      ((∃ t v cpu1 mem1, exec d.cpu d.memory =
          (Except.ok (t, ExecutionResult.Interrupt v), cpu1, mem1) ∧
        d1.cpu = cpu1 ∧ d1.memory = mem1) ∨
       d.instructions_executed + 1 < d.max_instructions)) := by
  unfold Debugger.step at h
  rw [if_neg hst] at h
  rcases hexec : exec d.cpu d.memory with ⟨res, cpu1, mem1⟩
  cases res with
  | error e => simp [hexec] at h
  | ok p =>
      rcases p with ⟨text, er⟩
      cases er with
      | Continue next_eip =>
          simp only [hexec, Prod.mk.injEq, Except.ok.injEq] at h
          obtain ⟨hsr, hd1⟩ := h
          subst hsr
          subst hd1
          refine ⟨rfl, rfl, ?_, ?_⟩
          · by_cases hbp : next_eip ∈ d.breakpoints
            · exact Or.inr (Or.inr (Or.inl ⟨next_eip, by simp [hbp]⟩))
            · by_cases hlim :
                  d.instructions_executed + 1 ≥ d.max_instructions
              · refine Or.inr (Or.inr (Or.inr ⟨?_, hlim⟩))
                simp [hbp]
                omega
              · refine Or.inl ?_
                simp [hbp]
                omega
          · intro hready
            right
            by_cases hbp : next_eip ∈ d.breakpoints
            · simp [hbp] at hready
            · by_cases hlim :
                  d.instructions_executed + 1 ≥ d.max_instructions
              · simp [hbp] at hready
                omega
              · omega
      | Halt =>
          simp only [hexec, Prod.mk.injEq, Except.ok.injEq] at h
          obtain ⟨hsr, hd1⟩ := h
          subst hsr
          subst hd1
          refine ⟨rfl, rfl, Or.inr (Or.inl rfl), ?_⟩
          intro hready
          simp at hready
      | Breakpoint =>
          simp only [hexec, Prod.mk.injEq, Except.ok.injEq] at h
          obtain ⟨hsr, hd1⟩ := h
          subst hsr
          subst hd1
          refine ⟨rfl, rfl, Or.inr (Or.inr (Or.inl ⟨_, rfl⟩)), ?_⟩
          intro hready
          simp at hready
      | Interrupt v =>
          simp only [hexec, Prod.mk.injEq, Except.ok.injEq] at h
          obtain ⟨hsr, hd1⟩ := h
          subst hsr
          subst hd1
          exact ⟨rfl, rfl, Or.inl rfl,
            fun _ => Or.inl ⟨text, v, cpu1, mem1, by simp [hexec], rfl, rfl⟩⟩

/-- One unfolding of the run loop when the step fails. -/
theorem runLoop_succ_step_error (exec : ExecOracle) (n : Nat) (d : Debugger)
    (e : DebuggerError) (d1 : Debugger)
    (hd1 : d.step exec = (Except.error e, d1)) :
    Debugger.runLoop exec (n + 1) d = some (Except.error e, d1) := by
  simp only [Debugger.runLoop]
  rw [hd1]

/-- One unfolding of the run loop when the step succeeds: dispatch on the
new debugger state. -/
theorem runLoop_succ_step_ok (exec : ExecOracle) (n : Nat) (d : Debugger)
    (sr : StepResult) (d1 : Debugger)
    (hd1 : d.step exec = (Except.ok sr, d1)) :
    Debugger.runLoop exec (n + 1) d =
      (match sr.state with
       | DebuggerState.AtBreakpoint a =>
           some (Except.ok (RunResult.Breakpoint a), d1)
       | DebuggerState.Halted => some (Except.ok RunResult.Halted, d1)
       | DebuggerState.LimitExceeded =>
           some (Except.ok (RunResult.LimitExceeded d1.instructions_executed), d1)
       | DebuggerState.Error msg => some (Except.ok (RunResult.Error msg), d1)
       | _ => Debugger.runLoop exec n d1) := by
  simp only [Debugger.runLoop]
  rw [hd1]

/-- A run whose current instruction is a stationary interrupt (the executor
hands back its CPU and memory untouched, as `exec_int` does) never
terminates, so it never reports `LimitExceeded`. -/
theorem runLoop_interrupt_stuck (exec : ExecOracle) :
    ∀ (fuel : Nat) (d : Debugger) (t : String) (v : Nat) (c : Nat)
      (d' : Debugger),
      exec d.cpu d.memory =
        (Except.ok (t, ExecutionResult.Interrupt v), d.cpu, d.memory) →
      Debugger.runLoop exec fuel d ≠
        some (Except.ok (RunResult.LimitExceeded c), d') := by
  intro fuel
  induction fuel with
  | zero =>
      intro d t v c d' hcur hrun
      simp [Debugger.runLoop] at hrun
  | succ n ih =>
      intro d t v c d' hcur hrun
      by_cases hst : d.state = DebuggerState.Halted ∨
          d.state = DebuggerState.LimitExceeded
      · rw [runLoop_succ_step_error exec n d _ _ (step_terminal exec d hst)]
          at hrun
        simp at hrun
      · obtain ⟨sr, d2, hstep, hsready, hcpu, hmem, _⟩ :=
          step_interrupt_inv exec d t v d.cpu d.memory hst hcur
        rw [runLoop_succ_step_ok exec n d sr d2 hstep, hsready] at hrun
        have hrec : Debugger.runLoop exec n d2 =
            some (Except.ok (RunResult.LimitExceeded c), d') := hrun
        have hcur2 : exec d2.cpu d2.memory =
            (Except.ok (t, ExecutionResult.Interrupt v), d2.cpu, d2.memory) := by
          rw [hcpu, hmem]
          exact hcur
        exact ih d2 t v c d' hcur2 hrec

/-- The run loop, entered with the per-run counter strictly below the
ceiling and an executor whose interrupt outcomes are stationary, reports
`LimitExceeded` only with the counter exactly at the ceiling. -/
theorem runLoop_limit (exec : ExecOracle)
    (hstat : ∀ (cpu : CpuState) (mem : Memory) (t : String) (v : Nat)
      (cpu1 : CpuState) (mem1 : Memory),
      exec cpu mem = (Except.ok (t, ExecutionResult.Interrupt v), cpu1, mem1) →
      cpu1 = cpu ∧ mem1 = mem) :
    ∀ (fuel : Nat) (d : Debugger) (c : Nat) (d' : Debugger),
      d.instructions_executed < d.max_instructions →
      Debugger.runLoop exec fuel d =
        some (Except.ok (RunResult.LimitExceeded c), d') →
      c = d.max_instructions ∧
        d'.instructions_executed = d.max_instructions := by
  intro fuel
  induction fuel with
  | zero =>
      intro d c d' hlt hrun
      simp [Debugger.runLoop] at hrun
  | succ n ih =>
      intro d c d' hlt hrun
      by_cases hst : d.state = DebuggerState.Halted ∨
          d.state = DebuggerState.LimitExceeded
      · rw [runLoop_succ_step_error exec n d _ _ (step_terminal exec d hst)]
          at hrun
        simp at hrun
      · rcases hd1 : d.step exec with ⟨r, d1⟩
        cases r with
        | error e =>
            rw [runLoop_succ_step_error exec n d e d1 hd1] at hrun
            simp at hrun
        | ok sr =>
            rw [runLoop_succ_step_ok exec n d sr d1 hd1] at hrun
            obtain ⟨hmaxeq, hieeq, hstate4, hready⟩ :=
              step_ok_full_inv exec d sr d1 hst hd1
            rcases hstc : sr.state with _ | _ | a | _ | _ | msg
            · -- Ready: the loop continues
              rw [hstc] at hrun
              have hrec : Debugger.runLoop exec n d1 =
                  some (Except.ok (RunResult.LimitExceeded c), d') := hrun
              rcases hready hstc with ⟨t, v, cpu1, mem1, hexec, hcpu, hmem⟩ | hlt2
              · obtain ⟨hc1, hm1⟩ := hstat d.cpu d.memory t v cpu1 mem1 hexec
                exfalso
                refine runLoop_interrupt_stuck exec n d1 t v c d' ?_ hrec
                simp [hcpu, hmem, hc1, hm1, hexec]
              · have := ih d1 c d' (by omega) hrec
                omega
            · -- Running is never produced by a step
              rcases hstate4 with h4 | h4 | ⟨a, h4⟩ | ⟨h4, _⟩ <;>
                rw [hstc] at h4 <;> cases h4
            · -- AtBreakpoint: the run returns a breakpoint result
              rw [hstc] at hrun
              simp at hrun
            · -- Halted
              rw [hstc] at hrun
              simp at hrun
            · -- LimitExceeded: reported count is the incremented counter
              rw [hstc] at hrun
              simp at hrun
              obtain ⟨hc, hd'⟩ := hrun
              rcases hstate4 with h4 | h4 | ⟨a, h4⟩ | ⟨_, h4⟩
              · rw [hstc] at h4; cases h4
              · rw [hstc] at h4; cases h4
              · rw [hstc] at h4; cases h4
              · subst hd'
                omega
            · -- Error state
              rw [hstc] at hrun
              simp at hrun

/-- **C4 (amended)**: whenever `run()` returns `LimitExceeded(count)` with a
configured ceiling of at least 1 — given that the executor's interrupt
outcomes leave CPU and memory untouched, as `exec_int` does — the reported
count equals the ceiling exactly, and exactly ceiling-many instructions
were executed in that run. -/
theorem run_limit_exact (exec : ExecOracle) (fuel : Nat) (d : Debugger)
    (c : Nat) (d' : Debugger)
    (hceil : 1 ≤ d.max_instructions)
    (hstat : ∀ (cpu : CpuState) (mem : Memory) (t : String) (v : Nat)
      (cpu1 : CpuState) (mem1 : Memory),
      exec cpu mem = (Except.ok (t, ExecutionResult.Interrupt v), cpu1, mem1) →
      cpu1 = cpu ∧ mem1 = mem)
    (hrun : d.run exec fuel =
      some (Except.ok (RunResult.LimitExceeded c), d')) :
    c = d.max_instructions ∧
      d'.instructions_executed = d.max_instructions := by
  unfold Debugger.run at hrun
  exact runLoop_limit exec hstat fuel
    { d with instructions_executed := 0, state := DebuggerState.Running } c d'
    (by simpa using hceil) hrun

/-- Witness for C4 at the concrete NOP program with ceiling 2 and fuel 5. -/
theorem run_limit_exact_witness :
    (Debugger.run nopOracle 5
        { nopDebugger with max_instructions := 2 }).map Prod.fst =
      some (Except.ok (RunResult.LimitExceeded 2)) ∧
    (2 : Nat) =
      ({ nopDebugger with max_instructions := 2 } : Debugger).max_instructions := by
  constructor
  · rfl
  · rcases hrun : Debugger.run nopOracle 5
        { nopDebugger with max_instructions := 2 } with _ | p
    · exact absurd hrun (by rw [show Debugger.run nopOracle 5
        { nopDebugger with max_instructions := 2 } = some
          ((Debugger.run nopOracle 5
            { nopDebugger with max_instructions := 2 }).getD
              (Except.ok RunResult.Halted, nopDebugger)) from rfl]; simp)
    · rcases p with ⟨r, dfin⟩
      have hr : r = Except.ok (RunResult.LimitExceeded 2) := by
        have := congrArg (Option.map Prod.fst) hrun
        rw [show (Debugger.run nopOracle 5
          { nopDebugger with max_instructions := 2 }).map Prod.fst =
            some (Except.ok (RunResult.LimitExceeded 2)) from rfl] at this
        simpa using this.symm
      subst hr
      exact (run_limit_exact nopOracle 5
        { nopDebugger with max_instructions := 2 } 2 dfin (by decide)
        (by intro cpu mem t v cpu1 mem1 hx; simp [nopOracle] at hx)
        hrun).1

/-- **C4, counterexample to the claim as stated**: with the instruction
ceiling configured to 0 through the public `run_n(0)` rounding of
`max_instructions`, the run reports `LimitExceeded(1)`: the reported count
is not the ceiling (1 ≠ 0) and one instruction was executed, exceeding the
ceiling. -/
theorem run_limit_zero_ceiling_counterexample :
    (Debugger.run_n nopOracle 5 0 nopDebugger).map Prod.fst =
      some (Except.ok (RunResult.LimitExceeded 1)) ∧ (1 : Nat) ≠ 0 :=
  ⟨rfl, by decide⟩

/-! ## Claim C8: `find_strings` finds exactly the maximal null-terminated
printable runs -/

theorem runSuffix_append_string (done : List Nat) (b : Nat)
    (h : isStringByte b = true) :
    runSuffix (done ++ [b]) = runSuffix done ++ [b] := by
  unfold runSuffix
  rw [List.reverse_append]
  simp [List.takeWhile_cons, h]

theorem runSuffix_append_non (done : List Nat) (b : Nat)
    (h : isStringByte b = false) :
    runSuffix (done ++ [b]) = [] := by
  unfold runSuffix
  rw [List.reverse_append]
  simp [List.takeWhile_cons, h]

theorem runSuffix_length_le (l : List Nat) :
    (runSuffix l).length ≤ l.length := by
  unfold runSuffix
  rw [List.length_reverse]
  calc (l.reverse.takeWhile isStringByte).length
      ≤ l.reverse.length := List.Sublist.length_le (List.takeWhile_sublist _)
    _ = l.length := List.length_reverse l

/-- One unfolding of the scanning loop. -/
theorem findStringsLoop_cons (s m : Nat) (b : Nat) (rest : List Nat)
    (i : Nat) (cur : List Nat) (st : Option Nat) (res : List SearchResult) :
    findStringsLoop s m (b :: rest) i cur st res =
      (if b = 0 then
        findStringsLoop s m rest (i + 1) [] none
          (if cur.length ≥ m then
            (match st with
             | some start => res ++ [⟨start, cur⟩]
             | none => res)
           else res)
       else if isStringByte b then
        findStringsLoop s m rest (i + 1) (cur ++ [b])
          (if st.isNone then some (s + i) else st) res
       else findStringsLoop s m rest (i + 1) [] none res) := by
  simp only [findStringsLoop]

/-- Appending one byte extends the claim-level result list by at most the
entry for a null at the new position. -/
theorem findStringsSpec_append (s m : Nat) (done : List Nat) (b : Nat) :
    findStringsSpec s m (done ++ [b]) =
      findStringsSpec s m done ++
      (if b = 0 ∧ m ≤ (runSuffix done).length ∧ runSuffix done ≠ [] then
        [⟨s + (done.length - (runSuffix done).length), runSuffix done⟩]
       else []) := by
  unfold findStringsSpec
  rw [List.length_append, List.length_singleton, List.range_succ,
    List.filterMap_append]
  have hrun : maximalRunBefore (done ++ [b]) done.length = runSuffix done := by
    unfold maximalRunBefore
    rw [List.take_append_of_le_length (by omega), List.take_length]
  congr 1
  · apply List.filterMap_congr
    intro j hj
    have hjlt : j < done.length := List.mem_range.mp hj
    rw [List.get?_append hjlt]
    have hrun2 : maximalRunBefore (done ++ [b]) j = maximalRunBefore done j := by
      unfold maximalRunBefore
      rw [List.take_append_of_le_length (by omega)]
    rw [hrun2]
  · simp only [List.filterMap_cons, List.filterMap_nil]
    rw [List.get?_concat_length]
    rcases b with _ | k
    · simp only [hrun]
      by_cases hcond : m ≤ (runSuffix done).length ∧ runSuffix done ≠ []
      · simp [hcond]
      · simp only [true_and]
        rw [if_neg hcond]
        have hcond2 : ¬ (m ≤ (runSuffix done).length ∧ runSuffix done ≠ []) :=
          hcond
        simp [hcond2]
    · simp

/-- The scanning loop, started from any already-scanned prefix `done` with
the matching run state, produces exactly the claim-level result list. -/
theorem findStringsLoop_spec (s m : Nat) :
    ∀ (todo done : List Nat),
      findStringsLoop s m todo done.length (runSuffix done)
        (runStartOpt s done) (findStringsSpec s m done) =
      findStringsSpec s m (done ++ todo) := by
  intro todo
  induction todo with
  | nil =>
      intro done
      rw [List.append_nil]
      rfl
  | cons b rest ih =>
      intro done
      rw [findStringsLoop_cons]
      have hlen1 : (done ++ [b]).length = done.length + 1 := by
        rw [List.length_append]
        rfl
      by_cases hb0 : b = 0
      · subst hb0
        rw [if_pos rfl]
        have hres : (if (runSuffix done).length ≥ m then
            (match runStartOpt s done with
             | some start =>
                findStringsSpec s m done ++ [⟨start, runSuffix done⟩]
             | none => findStringsSpec s m done)
           else findStringsSpec s m done) =
            findStringsSpec s m (done ++ [0]) := by
          rw [findStringsSpec_append]
          by_cases hnil : runSuffix done = []
          · have hl : runStartOpt s done = none := by
              unfold runStartOpt
              rw [if_pos hnil]
            rw [hl, if_neg (show ¬(0 = 0 ∧ m ≤ (runSuffix done).length ∧
                runSuffix done ≠ []) from fun hc => hc.2.2 hnil),
              List.append_nil]
            by_cases hm : (runSuffix done).length ≥ m
            · rw [if_pos hm]
            · rw [if_neg hm]
          · have hl : runStartOpt s done =
                some (s + (done.length - (runSuffix done).length)) := by
              unfold runStartOpt
              rw [if_neg hnil]
            rw [hl]
            by_cases hm : (runSuffix done).length ≥ m
            · rw [if_pos hm, if_pos ⟨rfl, hm, hnil⟩]
            · rw [if_neg hm, if_neg (show ¬(0 = 0 ∧
                  m ≤ (runSuffix done).length ∧ runSuffix done ≠ []) from
                  fun hc => hm hc.2.1), List.append_nil]
        rw [hres]
        have h2 : runSuffix (done ++ [0]) = [] :=
          runSuffix_append_non done 0 (by decide)
        have h3 : runStartOpt s (done ++ [0]) = none := by
          unfold runStartOpt
          rw [if_pos h2]
        have ihh := ih (done ++ [0])
        rw [hlen1, h2, h3, List.append_assoc, List.singleton_append] at ihh
        exact ihh
      · rw [if_neg hb0]
        have h4 : findStringsSpec s m (done ++ [b]) =
            findStringsSpec s m done := by
          rw [findStringsSpec_append, if_neg (fun hc => hb0 hc.1),
            List.append_nil]
        by_cases hsb : isStringByte b = true
        · rw [if_pos hsb]
          have h2 : runSuffix (done ++ [b]) = runSuffix done ++ [b] :=
            runSuffix_append_string done b hsb
          have h3 : runStartOpt s (done ++ [b]) =
              (if (runStartOpt s done).isNone then some (s + done.length)
               else runStartOpt s done) := by
            by_cases hnil : runSuffix done = []
            · have hl : runStartOpt s done = none := by
                unfold runStartOpt
                rw [if_pos hnil]
              rw [hl]
              unfold runStartOpt
              rw [h2, hnil]
              rw [if_neg (by simp)]
              simp [hlen1]
            · have hl : runStartOpt s done =
                  some (s + (done.length - (runSuffix done).length)) := by
                unfold runStartOpt
                rw [if_neg hnil]
              rw [hl]
              unfold runStartOpt
              rw [h2, if_neg (by simp)]
              have harith : (done ++ [b]).length - (runSuffix done ++ [b]).length =
                  done.length - (runSuffix done).length := by
                rw [List.length_append, List.length_append]
                omega
              rw [harith]
              rfl
          have ihh := ih (done ++ [b])
          rw [hlen1, h2, h3, h4, List.append_assoc, List.singleton_append]
            at ihh
          exact ihh
        · rw [if_neg hsb]
          have hsb' : isStringByte b = false := by
            cases hx : isStringByte b
            · rfl
            · exact absurd hx hsb
          have h2 : runSuffix (done ++ [b]) = [] :=
            runSuffix_append_non done b hsb'
          have h3 : runStartOpt s (done ++ [b]) = none := by
            unfold runStartOpt
            rw [if_pos h2]
          have ihh := ih (done ++ [b])
          rw [hlen1, h2, h3, h4, List.append_assoc, List.singleton_append]
            at ihh
          exact ihh


/-- **C8**: over an in-bounds range, `find_strings(min_length)` returns
exactly the claim-level list: one result per null byte whose preceding
maximal printable-or-whitespace run is nonempty and at least `min_length`
long, reported at the run's start address with the run's bytes — runs cut
short by a non-printable byte or missing their null terminator are never
reported. -/
theorem find_strings_exact (memory : Memory)
    (min_length start_address end_address : Nat) (data : List Nat)
    (hlt : start_address < end_address)
    (hread : memory.read_bytes start_address (end_address - start_address) =
      Except.ok data) :
    MemorySearch.find_strings memory min_length start_address end_address =
      Except.ok (findStringsSpec start_address min_length data) := by
  unfold MemorySearch.find_strings
  rw [if_neg (by omega), hread]
  have h := findStringsLoop_spec start_address min_length data []
  simpa using h

/-- Witness for C8: a concrete memory holding `"Hello\0"`, `"ok\0"` and a
run interrupted by a non-printable byte, scanned with `min_length = 4`. -/
theorem find_strings_exact_witness :
    MemorySearch.find_strings
      (((Memory.new 16).load 0
        [72, 101, 108, 108, 111, 0, 111, 107, 0, 7, 65, 66, 0, 0, 0, 0]).2)
      4 0 16 =
      Except.ok (findStringsSpec 0 4
        [72, 101, 108, 108, 111, 0, 111, 107, 0, 7, 65, 66, 0, 0, 0, 0]) ∧
    findStringsSpec 0 4
        [72, 101, 108, 108, 111, 0, 111, 107, 0, 7, 65, 66, 0, 0, 0, 0] =
      [⟨0, [72, 101, 108, 108, 111]⟩] := by
  constructor
  · exact find_strings_exact _ 4 0 16 _ (by decide) (by rfl)
  · rfl

end RevGame
